import Mathlib

/-!
imcsh: command parsing and the process table.

A shallow embedding of `src/main.c` (the IMCSH shell) and theorems about it.

Conventions of the embedding

* A C string is the list of its characters before the terminating NUL
  (`List Char`); a `char *` that may be NULL is an `Option (List Char)`, with
  `none` for NULL. Tokens alias the line buffer in C; here they are values.
* `strtok` keeps a hidden saved pointer; here the saved text is passed in and
  returned explicitly.
* `args_t.args` holds the entries of the C array that have been written, in
  index order. The array has `MAX_ARGS` entries: a store at an index that is
  not below `MAX_ARGS` is undefined behaviour.
* The process table `process_t *processes[MAX_PROCESSES]` is a list of
  `Option process_t` (`none` for a NULL slot); a well-formed table has
  `MAX_PROCESSES` entries.
* System calls are events of a trace; what the operating system answers
  (the line read, the value `fork` returns, ...) is given by an `env`.
-/

namespace Imcsh

/-! ## Constants of the source -/

/-- The command literal `exec` (CMD_EXEC). -/
def CMD_EXEC : List Char := ['e', 'x', 'e', 'c']

/-- The command literal `globalusage` (CMD_GLOBALUSAGE). -/
def CMD_GLOBALUSAGE : List Char := ['g', 'l', 'o', 'b', 'a', 'l', 'u', 's', 'a', 'g', 'e']

/-- The command literal `quit` (CMD_QUIT). -/
def CMD_QUIT : List Char := ['q', 'u', 'i', 't']

/-- The background modifier `&` (MODIFIER_BACKGROUND). -/
def MODIFIER_BACKGROUND : List Char := ['&']

/-- The redirection modifier `>` (MODIFIER_OUTPUT). -/
def MODIFIER_OUTPUT : List Char := ['>']

/-- Size of the line buffer (BUFFER_SIZE). -/
def BUFFER_SIZE : Nat := 1024

/-- Number of entries of `args_t.args` (MAX_ARGS). -/
def MAX_ARGS : Nat := 64

/-- Number of slots of the process table (MAX_PROCESSES). -/
def MAX_PROCESSES : Nat := 8

/-- Exit code of a normal exit (EXIT_SUCCESS). -/
def EXIT_SUCCESS : Nat := 0

/-- Exit code of a failed exit (EXIT_FAILURE). -/
def EXIT_FAILURE : Nat := 1

/-! ## Data model -/

/-- The struct `args_t`: `args` lists the written entries of the array
`char *args[MAX_ARGS]` in index order (`none` is a stored NULL), `size` is the
field `size`. -/
structure args_t where
  args : List (Option (List Char))
  size : Nat
deriving DecidableEq, Repr

/-- The struct `command_t`. `name` and `output_f` are `char *` (NULL is
`none`); `args` is the `args_t` that the field points to. -/
structure command_t where
  name : Option (List Char)
  args : args_t
  background : Bool
  output_f : Option (List Char)
deriving DecidableEq, Repr

/-- How a call ends: it returns a value, the process exits with a code, or the
behaviour is undefined in C (a store past the end of an array, a NULL pointer
handed to `strcmp`). -/
inductive outcome (α : Type) where
  | ok (a : α)
  | exit (code : Nat)
  | undefined
deriving DecidableEq, Repr

/-- What `read(STDIN, buffer, BUFFER_SIZE)` does: it fails (a negative
return), or it delivers bytes; `line s` stands for a delivery after which the
C string in the buffer, once the first newline is overwritten with NUL, is
`s`. -/
inductive read_result where
  | error
  | line (s : List Char)
deriving DecidableEq, Repr

/-! ## Tokenizer and parser -/

/-- `read_into`: a failed read ends the process with EXIT_FAILURE, otherwise
the buffer holds the line without its newline. -/
def read_into (stdin : read_result) : outcome (List Char) :=
  match stdin with
  | .error => .exit EXIT_FAILURE
  | .line s => .ok s

/-- `strtok(_, " ")` on the text `s` at the saved pointer (for the first call,
the whole buffer): skip the leading spaces; with nothing left return NULL;
otherwise the token runs up to the next space, that space is overwritten with
NUL and the saved pointer moves just past it. Returns the token and the new
saved text. -/
def strtok (s : List Char) : Option (List Char) × List Char :=
  match s.dropWhile (fun c => c == ' ') with
  | [] => (none, [])
  | c :: cs =>
    (some ((c :: cs).takeWhile (fun c => c != ' ')),
     ((c :: cs).dropWhile (fun c => c != ' ')).drop 1)

/-- The loop of `parse_args`:
`while (buffer != NULL) { buffer = strtok(NULL, " "); args->args[n] = buffer; n++; }`.
The C parameter `buffer` is the line buffer, never NULL, so the first test
passes. `args` is what has been stored so far and `n` is its length. The store
`args->args[n]` is defined only for `n < MAX_ARGS`. The first argument bounds
the number of iterations; `none` means the bound was too small. -/
def parse_args_loop : Nat → List Char → List (Option (List Char)) →
    Option (outcome (List (Option (List Char))))
  | 0, _, _ => none
  | fuel + 1, saved, args =>
    let r := strtok saved
    if args.length < MAX_ARGS then
      match r.1 with
      | none => some (.ok (args ++ [none]))
      | some t => parse_args_loop fuel r.2 (args ++ [some t])
    else some .undefined

/-- `parse_args`: run the loop from `n = 0`, then `args->size = n - 1`. Every
iteration but the last consumes a character of the saved text, so its length
plus one bounds the number of iterations. -/
def parse_args (saved : List Char) : outcome args_t :=
  match parse_args_loop (saved.length + 1) saved [] with
  | some (.ok args) => .ok { args := args, size := args.length - 1 }
  | some (.exit c) => .exit c
  | _ => .undefined

/-- `is_background`:
`(args->size > 0) && (strcmp(args->args[args->size - 1], "&") == 0)`. -/
def is_background (args : args_t) : Bool :=
  decide (args.size > 0) && (args.args.getD (args.size - 1) none == some MODIFIER_BACKGROUND)

/-- `redirects_output`:
`(args->size > 1) && (strcmp(args->args[args->size - 2], ">") == 0)`. -/
def redirects_output (args : args_t) : Bool :=
  decide (args.size > 1) && (args.args.getD (args.size - 2) none == some MODIFIER_OUTPUT)

/-- `read_command` without the prompt: read the line, take the first token as
the name, parse the arguments, strip the background modifier and then the
redirection. -/
def read_command (stdin : read_result) : outcome command_t :=
  match read_into stdin with
  | .exit c => .exit c
  | .undefined => .undefined
  | .ok buffer =>
    let token := strtok buffer
    match parse_args token.2 with
    | .exit c => .exit c
    | .undefined => .undefined
    | .ok args =>
      let background := is_background args
      let args1 : args_t := if background then { args with size := args.size - 1 } else args
      let redirect := redirects_output args1
      let output_f := if redirect then args1.args.getD (args1.size - 1) none else none
      let args2 : args_t := if redirect then { args1 with size := args1.size - 2 } else args1
      .ok { name := token.1, args := args2, background := background, output_f := output_f }

/-- `crop_args`: a new `args_t` with the same size and the entries
`args[0 .. size - 1]` copied; no other entry of the new array is written. -/
def crop_args (args : args_t) : args_t :=
  { args := (List.range args.size).map (fun i => args.args.getD i none), size := args.size }

/-! ## Process table -/

/-- The struct `process_t`. -/
structure process_t where
  pid : Int
  position : Int
deriving DecidableEq, Repr

/-- The signals the shell sends. -/
inductive signal where
  | SIGKILL
deriving DecidableEq, Repr

/-- The observable actions of the shell: text written with `printf` (the
format string of the source and the values of its `%d` conversions), and the
system and library calls that act outside the shell's own variables. -/
inductive event where
  | printf (format : String) (values : List Int)
  | read_stdin
  | fork
  | fopen_append (path : List Char)
  | dup2_stdout
  | execvp (file : Option (List Char)) (argv : List (Option (List Char)))
  | waitpid (pid : Int)
  | kill (pid : Int) (sig : signal)
  | free_process (slot : Nat)
deriving DecidableEq, Repr

/-- The loop of `add_process`, at index `i` with `n = MAX_PROCESSES - i`
iterations left: the first NULL slot receives a new entry with the pid and the
index, and the index is returned; `none` means the loop ran to the end. -/
def add_process_loop (id : Int) (processes : List (Option process_t)) :
    Nat → Nat → Option (Nat × List (Option process_t))
  | 0, _ => none
  | n + 1, i =>
    match processes.getD i none with
    | none => some (i, processes.set i (some { pid := id, position := i }))
    | some _ => add_process_loop id processes n (i + 1)

/-- `add_process`: the events, the returned `int` and the table afterwards. -/
def add_process (id : Int) (processes : List (Option process_t)) :
    List event × Int × List (Option process_t) :=
  match add_process_loop id processes MAX_PROCESSES 0 with
  | some (i, processes1) => ([], (i : Int), processes1)
  | none => ([.printf "Too many processes running.\n" []], -1, processes)

/-- The loop of `terminate_processes`, at index `i` with
`n = MAX_PROCESSES - i` iterations left: every slot that is not NULL gets a
message, a SIGKILL for its pid and a `free` of its entry. -/
def terminate_processes_loop (processes : List (Option process_t)) : Nat → Nat → List event
  | 0, _ => []
  | n + 1, i =>
    (match processes.getD i none with
     | some p => [.printf "Killing process %d\n" [p.pid], .kill p.pid .SIGKILL, .free_process i]
     | none => []) ++ terminate_processes_loop processes n (i + 1)

/-- `terminate_processes`: the events and the table afterwards. The function
never assigns to `processes[i]`, so the slots keep their pointers. -/
def terminate_processes (processes : List (Option process_t)) :
    List event × List (Option process_t) :=
  (terminate_processes_loop processes MAX_PROCESSES 0, processes)

/-! ## Dispatcher -/

/-- What the operating system answers during one `execute_command`. -/
structure env where
  /-- the read at the confirmation prompt of `quit` -/
  stdin : read_result
  /-- the value `fork()` returns: -1, 0 in the child, the child's pid in the parent -/
  fork : Int
  /-- whether `fopen(output_f, "a")` returns a stream -/
  fopen_ok : Bool
  /-- `none` when `execvp` replaces the process image, else the value it returns -/
  execvp : Option Int
  /-- the value of `getpid()` -/
  getpid : Int
  /-- the status that `waitpid` stores -/
  wait_status : Int
deriving DecidableEq, Repr

/-- How `execute_command` ends: it returns to the read loop of `main`, the
process exits, the process image is replaced by `execvp`, or the behaviour is
undefined. -/
inductive status where
  | returned
  | exited (code : Nat)
  | replaced
  | undefined
deriving DecidableEq, Repr

/-- The effect of one `execute_command`: its trace, the table afterwards and
how it ended. -/
structure result where
  events : List event
  processes : List (Option process_t)
  status : status
deriving DecidableEq, Repr

/-- `print_usage`. -/
def print_usage : List event :=
  [.printf "IMCSH Version 1.1 created by Antonino Rossi @IMC, Mykhailo Neroznak @IMC.\n" []]

/-- The text of the confirmation prompt of `quit`. -/
def QUIT_PROMPT : String :=
  "There are still running processes. Would you like to kill them? (y/N): "

/-- The end of `execute_command` for a path that reaches it:
`printf("\n")`, then the function returns. -/
def finish (events : List event) (processes : List (Option process_t)) : result :=
  { events := events ++ [.printf "\n" []], processes := processes, status := .returned }

/-- The body of the `quit` loop at a slot that is not NULL: print the prompt
and read a line into `input`; on `y` terminate the processes, print and
`exit(EXIT_SUCCESS)`; on any other line print `Aborted.` and return from
`execute_command`. -/
def quit_confirm (e : env) (processes : List (Option process_t)) : result :=
  match read_into e.stdin with
  | .exit c =>
    { events := [.printf QUIT_PROMPT [], .read_stdin], processes := processes,
      status := .exited c }
  | .undefined =>
    { events := [.printf QUIT_PROMPT [], .read_stdin], processes := processes,
      status := .undefined }
  | .ok input =>
    if input = ['y'] then
      let t := terminate_processes processes
      { events := [.printf QUIT_PROMPT [], .read_stdin] ++ t.1 ++
          [.printf "All processes terminated.\n" []],
        processes := t.2, status := .exited EXIT_SUCCESS }
    else
      { events := [.printf QUIT_PROMPT [], .read_stdin, .printf "Aborted.\n" []],
        processes := processes, status := .returned }

/-- The loop of the `quit` branch, at index `i` with `n = MAX_PROCESSES - i`
iterations left: the first slot that is not NULL ends the function through
`quit_confirm`. `none` means the loop ran to the end. -/
def quit_loop (e : env) (processes : List (Option process_t)) : Nat → Nat → Option result
  | 0, _ => none
  | n + 1, i =>
    match processes.getD i none with
    | none => quit_loop e processes n (i + 1)
    | some _ => some (quit_confirm e processes)

/-- The child branch of `exec` (`pid == 0`), after the `fork`. -/
def exec_child (e : env) (command : command_t) (processes : List (Option process_t)) : result :=
  let to_execute := (crop_args command.args).args
  let run (opened : List event) : result :=
    let call := opened ++ [.execvp (to_execute.getD 0 none) to_execute]
    match e.execvp with
    | none => { events := call, processes := processes, status := .replaced }
    | some st =>
      if st = -1 then finish (call ++ [.printf "Error executing command.\n" []]) processes
      else finish (call ++ [.printf "Process %d exited with status %d.\n" [e.getpid, st]]) processes
  match command.output_f with
  | none => run [.fork]
  | some path =>
    if e.fopen_ok then run [.fork, .fopen_append path, .dup2_stdout]
    else
      { events := [.fork, .fopen_append path, .printf "Error opening file.\n" []],
        processes := processes, status := .returned }

/-- The parent branch of `exec`, after the `fork` returned `pid`. -/
def exec_parent (e : env) (command : command_t) (processes : List (Option process_t)) : result :=
  let pid := e.fork
  let added := add_process pid processes
  if added.2.1 = -1 then
    { events := [.fork] ++ added.1 ++ [.printf "Error adding process.\n" []],
      processes := added.2.2, status := .returned }
  else
    let registered :=
      [.fork] ++ added.1 ++ [.printf "Process %d added to running processes.\n" [pid]]
    if !command.background then
      finish (registered ++
        [.waitpid pid, .printf "Process %d exited with status %d.\n" [pid, e.wait_status]])
        added.2.2
    else finish registered added.2.2

/-- `execute_command` (built without DEBUG, so `display_command` does
nothing). A NULL `command->name` reaches `strcmp`, which is undefined. -/
def execute_command (e : env) (command : command_t) (processes : List (Option process_t)) :
    result :=
  match command.name with
  | none => { events := [], processes := processes, status := .undefined }
  | some name =>
    if name = CMD_QUIT then
      if command.args.size > 0 then
        finish [.printf "Invalid arguments for `quit` command.\n" [], .printf "Usage: quit\n" []]
          processes
      else
        match quit_loop e processes MAX_PROCESSES 0 with
        | some r => r
        | none => finish [] processes
    else if name = CMD_GLOBALUSAGE then
      if command.args.size > 0 then
        finish [.printf "Invalid arguments for `globalusage` command.\n" [],
                .printf "Usage: globalusage\n" []] processes
      else finish print_usage processes
    else if name = CMD_EXEC then
      if command.args.size < 1 then
        finish [.printf "Invalid arguments for `exec` command.\n" [],
                .printf "Usage: exec <command> [args] [> <file>] [&]\n" []] processes
      else if e.fork = -1 then
        { events := [.fork, .printf "Error forking.\n" []], processes := processes,
          status := .returned }
      else if e.fork = 0 then exec_child e command processes
      else exec_parent e command processes
    else finish ([.printf "Command not found.\n" []] ++ print_usage) processes

/-! ## Observations on tables and traces -/

/-- The entries of the occupied slots of a table, in slot order. -/
def tracked (processes : List (Option process_t)) : List process_t :=
  processes.filterMap id

/-- The signals sent in a trace, in order. -/
def kills : List event → List (Int × signal)
  | [] => []
  | .kill pid sig :: evs => (pid, sig) :: kills evs
  | _ :: evs => kills evs

/-- The slots whose entry is freed in a trace, in order. -/
def frees : List event → List Nat
  | [] => []
  | .free_process slot :: evs => slot :: frees evs
  | _ :: evs => frees evs

/-- The number of confirmation prompts printed in a trace. -/
def prompts (events : List event) : Nat :=
  events.count (.printf QUIT_PROMPT [])

/-- The number of lines read from standard input in a trace. -/
def reads (events : List event) : Nat :=
  events.count .read_stdin

/-- Successive registrations: `add_process` for each pid in turn, with the
list of the values it returns and the final table. -/
def register_all : List Int → List (Option process_t) → List Int × List (Option process_t)
  | [], processes => ([], processes)
  | id :: ids, processes =>
    let r := add_process id processes
    let rs := register_all ids r.2.2
    (r.2.1 :: rs.1, rs.2)

/-- The number of `fork` calls in a trace. -/
def forks (events : List event) : Nat :=
  events.count .fork

/-- The pids waited for in a trace, in order. -/
def waits : List event → List Int
  | [] => []
  | .waitpid pid :: evs => pid :: waits evs
  | _ :: evs => waits evs

/-- The format strings of the texts printed in a trace, in order. -/
def outputs : List event → List String
  | [] => []
  | .printf format _ :: evs => format :: outputs evs
  | _ :: evs => outputs evs

/-- The number of registrations reported in a trace
(`Process %d added to running processes.`). -/
def registrations (events : List event) : Nat :=
  (outputs events).count "Process %d added to running processes.\n"

/-- A sequence of turns of the read loop of `main` as seen by one process:
each turn runs `execute_command` on the table the previous turn left, for as
long as the turns return. Gives the whole trace and the last table. -/
def run_turns : List (env × command_t) → List (Option process_t) →
    List event × List (Option process_t)
  | [], processes => ([], processes)
  | turn :: rest, processes =>
    let r := execute_command turn.1 turn.2 processes
    if r.status = .returned then
      let rs := run_turns rest r.processes
      (r.events ++ rs.1, rs.2)
    else (r.events, r.processes)

/-! ## Reference tokenization -/

/-- The pieces of a line between single spaces (empty pieces included). -/
def split_spaces : List Char → List (List Char)
  | [] => [[]]
  | c :: cs =>
    if c = ' ' then [] :: split_spaces cs
    else
      match split_spaces cs with
      | [] => [[c]]
      | w :: ws => (c :: w) :: ws

/-- The space-delimited tokens of a line: its maximal runs of characters other
than the space, in order. -/
def tokens (line : List Char) : List (List Char) :=
  (split_spaces line).filter (fun w => !w.isEmpty)

/-- The argument tokens of a line: all tokens after the first. -/
def arg_tokens (line : List Char) : List (List Char) :=
  (tokens line).drop 1

/-- The arguments of a command: entries `0 .. size - 1` of its array. -/
def arguments (cmd : command_t) : List (Option (List Char)) :=
  cmd.args.args.take cmd.args.size


/-- Background stripping in the words of the specification: when the last
candidate argument is `&`, the flag is set and that argument is dropped. -/
def strip_background (ts : List (List Char)) : Bool × List (List Char) :=
  if ts.getLast? = some MODIFIER_BACKGROUND then (true, ts.dropLast) else (false, ts)

/-- Redirection stripping in the words of the specification: when the
second-to-last remaining argument is `>`, the target is the last remaining
argument and both are dropped. -/
def strip_redirection (ts : List (List Char)) : Option (List Char) × List (List Char) :=
  if ts.dropLast.getLast? = some MODIFIER_OUTPUT then (ts.getLast?, ts.dropLast.dropLast)
  else (none, ts)

/-- The tokens that the two strippings remove, in line order. -/
def stripped_tail (background : Bool) (output_f : Option (List Char)) : List (List Char) :=
  (match output_f with
   | some f => [ MODIFIER_OUTPUT, f]
   | none => []) ++ (if background then [ MODIFIER_BACKGROUND] else [])

/-! ## The tokenizer computes the space-delimited tokens -/

theorem split_spaces_eq (cs : List Char) :
    split_spaces cs =
      cs.takeWhile (fun c => c != ' ') ::
        (match cs.dropWhile (fun c => c != ' ') with
         | [] => []
         | _ :: r => split_spaces r) := by
  induction cs with
  | nil => simp [split_spaces]
  | cons c cs ih =>
    by_cases hc : c = ' '
    · subst hc
      simp [split_spaces]
    · rw [split_spaces, if_neg hc, ih]
      simp [hc]

theorem tokens_nil : tokens [] = [] := by
  simp [tokens, split_spaces]

theorem tokens_cons_space (cs : List Char) : tokens (' ' :: cs) = tokens cs := by
  simp [tokens, split_spaces]

theorem tokens_cons_of_ne (c : Char) (cs : List Char) (hc : c ≠ ' ') :
    tokens (c :: cs) =
      (c :: cs).takeWhile (fun c => c != ' ') ::
        tokens (((c :: cs).dropWhile (fun c => c != ' ')).drop 1) := by
  rw [tokens, split_spaces_eq]
  simp only [List.filter]
  have h1 : (c :: cs).takeWhile (fun c => c != ' ') = c :: cs.takeWhile (fun c => c != ' ') := by
    simp [hc]
  rw [h1]
  simp only [List.isEmpty_cons, Bool.not_false]
  congr 1
  cases hd : (c :: cs).dropWhile (fun c => c != ' ') with
  | nil => simp [tokens_nil]
  | cons x r => simp [tokens]

theorem strtok_cons_space (cs : List Char) : strtok (' ' :: cs) = strtok cs := by
  simp [strtok]

theorem strtok_cons_of_ne (c : Char) (cs : List Char) (hc : c ≠ ' ') :
    strtok (c :: cs) =
      (some ((c :: cs).takeWhile (fun c => c != ' ')),
       ((c :: cs).dropWhile (fun c => c != ' ')).drop 1) := by
  simp [strtok, hc]

/-- The token `strtok` returns is the first space-delimited token of the saved
text (NULL when there is none), and the new saved text holds the remaining
tokens. -/
theorem strtok_tokens (s : List Char) :
    (strtok s).1 = (tokens s).head? ∧ tokens (strtok s).2 = (tokens s).tail := by
  induction s with
  | nil => simp [strtok, tokens_nil]
  | cons c cs ih =>
    by_cases hc : c = ' '
    · subst hc
      rw [strtok_cons_space, tokens_cons_space]
      exact ih
    · rw [strtok_cons_of_ne c cs hc, tokens_cons_of_ne c cs hc]
      simp

/-- A call of `strtok` that returns a token shortens the saved text. -/
theorem strtok_length (s : List Char) (t : List Char) (h : (strtok s).1 = some t) :
    (strtok s).2.length < s.length := by
  induction s with
  | nil => simp [strtok] at h
  | cons c cs ih =>
    by_cases hc : c = ' '
    · subst hc
      rw [strtok_cons_space] at h ⊢
      have := ih h
      simp only [List.length_cons]
      omega
    · rw [strtok_cons_of_ne c cs hc]
      simp only [List.length_drop, List.length_cons]
      have := (List.dropWhile_sublist (fun c => c != ' ') (l := c :: cs)).length_le
      simp only [List.length_cons] at this
      omega

/-- With enough iterations allowed and room in the array, the loop of
`parse_args` stores the tokens of the saved text in order and then a NULL. -/
theorem parse_args_loop_tokens (fuel : Nat) :
    ∀ (saved : List Char) (args : List (Option (List Char))),
      saved.length < fuel → args.length + (tokens saved).length < MAX_ARGS →
      parse_args_loop fuel saved args = some (.ok (args ++ (tokens saved).map some ++ [none])) := by
  induction fuel with
  | zero => intro saved args hf; omega
  | succ fuel ih =>
    intro saved args hf hn
    have hlt : args.length < MAX_ARGS := by omega
    obtain ⟨h1, h2⟩ := strtok_tokens saved
    rw [parse_args_loop]
    simp only [hlt, if_true]
    cases ht : tokens saved with
    | nil =>
      rw [ht] at h1
      simp only [List.head?_nil] at h1
      rw [h1]
      simp
    | cons t ts =>
      rw [ht] at h1 h2 hn
      simp only [List.head?_cons] at h1
      simp only [List.tail_cons] at h2
      have hl := strtok_length saved t h1
      rw [h1]
      simp only
      rw [ih (strtok saved).2 (args ++ [some t]) (by omega)
        (by rw [h2]; simp only [List.length_append, List.length_cons, List.length_nil] at hn ⊢; omega)]
      rw [h2]
      simp

/-- When the tokens do not fit into the array together with the closing NULL,
the loop of `parse_args` stores past the end of the array. -/
theorem parse_args_loop_overflow (fuel : Nat) :
    ∀ (saved : List Char) (args : List (Option (List Char))),
      saved.length < fuel → MAX_ARGS ≤ args.length + (tokens saved).length →
      parse_args_loop fuel saved args = some .undefined := by
  induction fuel with
  | zero => intro saved args hf; omega
  | succ fuel ih =>
    intro saved args hf hn
    obtain ⟨h1, h2⟩ := strtok_tokens saved
    rw [parse_args_loop]
    by_cases hlt : args.length < MAX_ARGS
    · simp only [hlt, if_true]
      cases ht : tokens saved with
      | nil => rw [ht] at hn; simp only [List.length_nil] at hn; omega
      | cons t ts =>
        rw [ht] at h1 h2 hn
        simp only [List.head?_cons] at h1
        simp only [List.tail_cons] at h2
        have hl := strtok_length saved t h1
        rw [h1]
        simp only
        exact ih (strtok saved).2 (args ++ [some t]) (by omega)
          (by rw [h2]; simp only [List.length_append, List.length_cons, List.length_nil] at hn ⊢; omega)
    · simp only [hlt, if_false]

/-- `parse_args` with fewer than MAX_ARGS tokens left in the saved text: the
array holds the tokens followed by NULL and `size` is their number. -/
theorem parse_args_eq (saved : List Char) (h : (tokens saved).length < MAX_ARGS) :
    parse_args saved =
      .ok { args := (tokens saved).map some ++ [none], size := (tokens saved).length } := by
  rw [parse_args, parse_args_loop_tokens (saved.length + 1) saved [] (by omega) (by simpa using h)]
  simp

/-- `parse_args` with MAX_ARGS tokens or more left in the saved text is
undefined. -/
theorem parse_args_overflow (saved : List Char) (h : MAX_ARGS ≤ (tokens saved).length) :
    parse_args saved = .undefined := by
  rw [parse_args, parse_args_loop_overflow (saved.length + 1) saved [] (by omega) (by simpa using h)]

/-- Reading entry `i` of the array that `parse_args` fills. -/
theorem getD_stored (ts : List (List Char)) (i : Nat) :
    (ts.map some ++ [none]).getD i none = ts[i]? := by
  induction ts generalizing i with
  | nil => cases i <;> simp [List.getD]
  | cons t ts ih =>
    cases i with
    | zero => simp [List.getD]
    | succ i => simpa [List.getD] using ih i

/-- The first `n` entries of the array that `parse_args` fills. -/
theorem take_stored (ts : List (List Char)) (n : Nat) (h : n ≤ ts.length) :
    (ts.map some ++ [none]).take n = (ts.take n).map some := by
  rw [List.take_append_of_le_length (by simpa using h), List.map_take]

/-! ## Modifier stripping -/

theorem is_background_stored (ts : List (List Char)) :
    is_background { args := ts.map some ++ [none], size := ts.length } =
      decide (ts.getLast? = some MODIFIER_BACKGROUND) := by
  simp only [is_background, getD_stored, List.getLast?_eq_getElem?]
  cases ts with
  | nil => simp
  | cons t ts => simp [Bool.beq_eq_decide_eq]

theorem redirects_output_stored (ts : List (List Char)) (n : Nat) (h : n ≤ ts.length) :
    redirects_output { args := ts.map some ++ [none], size := n } =
      decide ((ts.take n).dropLast.getLast? = some MODIFIER_OUTPUT) := by
  simp only [redirects_output, getD_stored, List.getLast?_dropLast, List.length_take,
    Nat.min_eq_left h]
  by_cases hn : n ≤ 1
  · have : ¬ n > 1 := by omega
    simp [hn, this]
  · have h1 : n > 1 := by omega
    simp only [hn, if_false, h1, decide_True, Bool.true_and]
    rw [List.getElem?_take_of_lt (by omega), Bool.beq_eq_decide_eq]

theorem getD_stored_last (ts : List (List Char)) (n : Nat) (h : n ≤ ts.length) (h0 : 0 < n) :
    (ts.map some ++ [none]).getD (n - 1) none = (ts.take n).getLast? := by
  rw [getD_stored, List.getLast?_eq_getElem?, List.length_take, Nat.min_eq_left h,
    List.getElem?_take_of_lt (by omega)]

theorem length_strip_background_le (ts : List (List Char)) :
    (strip_background ts).2.length ≤ ts.length := by
  unfold strip_background
  split <;> simp

theorem strip_background_eq_take (ts : List (List Char)) :
    (strip_background ts).2 = ts.take (strip_background ts).2.length := by
  unfold strip_background
  split
  · simp [List.dropLast_eq_take]
  · simp

theorem strip_redirection_eq_take (ts : List (List Char)) :
    (strip_redirection ts).2 = ts.take (strip_redirection ts).2.length := by
  unfold strip_redirection
  split
  · simp [List.dropLast_eq_take, List.take_take]
  · simp

theorem length_strip_redirection_le (ts : List (List Char)) :
    (strip_redirection ts).2.length ≤ ts.length := by
  unfold strip_redirection
  split
  · simp only [List.length_dropLast]; omega
  · simp

/-- What `read_command` returns for a line with fewer than MAX_ARGS argument
tokens, in terms of the tokens of the line: the name is the first token, the
array holds the argument tokens, and the flag, the target and the size are
those of background stripping followed by redirection stripping. -/
theorem read_command_eq (line : List Char) (h : (arg_tokens line).length < MAX_ARGS) :
    read_command (.line line) = .ok
      { name := (tokens line).head?,
        args :=
          { args := (arg_tokens line).map some ++ [none],
            size := (strip_redirection (strip_background (arg_tokens line)).2).2.length },
        background := (strip_background (arg_tokens line)).1,
        output_f := (strip_redirection (strip_background (arg_tokens line)).2).1 } := by
  obtain ⟨h1, h2⟩ := strtok_tokens line
  have h3 : tokens (strtok line).2 = arg_tokens line := by
    rw [h2, arg_tokens, List.drop_one]
  simp only [read_command, read_into]
  rw [parse_args_eq _ (by rw [h3]; exact h), h3, h1]
  simp only
  generalize arg_tokens line = ts
  rw [is_background_stored ts]
  by_cases hb : ts.getLast? = some MODIFIER_BACKGROUND
  · have hne : 0 < ts.length := by
      cases ts with
      | nil => simp at hb
      | cons t ts => simp
    have hsb : strip_background ts = (true, ts.dropLast) := by simp [strip_background, hb]
    simp only [hb, decide_True, if_true, hsb]
    rw [redirects_output_stored ts (ts.length - 1) (by omega), ← List.dropLast_eq_take]
    by_cases hr : ts.dropLast.dropLast.getLast? = some MODIFIER_OUTPUT
    · have hlen : 2 ≤ ts.dropLast.length := by
        rcases hd : ts.dropLast with _ | ⟨a, _ | ⟨b, r⟩⟩
        · rw [hd] at hr; simp at hr
        · rw [hd] at hr; simp at hr
        · simp
      simp only [List.length_dropLast] at hlen
      simp only [hr, decide_True, if_true, strip_redirection]
      rw [getD_stored_last ts (ts.length - 1) (by omega) (by omega), ← List.dropLast_eq_take]
      simp only [List.length_dropLast]
      congr 2
    · simp only [hr, decide_False, strip_redirection, List.length_dropLast]
      simp
  · have hsb : strip_background ts = (false, ts) := by simp [strip_background, hb]
    simp only [hb, decide_False, hsb]
    simp only [Bool.false_eq_true, if_false]
    rw [redirects_output_stored ts ts.length (le_refl _), List.take_length]
    by_cases hr : ts.dropLast.getLast? = some MODIFIER_OUTPUT
    · have hlen : 2 ≤ ts.length := by
        rcases ts with _ | ⟨a, _ | ⟨b, r⟩⟩
        · simp at hr
        · simp at hr
        · simp
      simp only [hr, decide_True, if_true, strip_redirection]
      rw [getD_stored_last ts ts.length (le_refl _) (by omega), List.take_length]
      simp only [List.length_dropLast]
      congr 2
    · simp only [hr, decide_False, strip_redirection]
      simp

theorem take_of_take_eq (ts r f : List (List Char)) (hr : r = ts.take r.length)
    (hf : f = r.take f.length) (hle : f.length ≤ r.length) : ts.take f.length = f := by
  calc ts.take f.length = (ts.take r.length).take f.length := by
        rw [List.take_take, Nat.min_eq_left hle]
    _ = r.take f.length := by rw [← hr]
    _ = f := hf.symm

/-- The arguments that remain after both strippings are the leading argument
tokens of the line. -/
theorem take_stored_final (ts : List (List Char)) :
    (ts.map some ++ [none]).take (strip_redirection (strip_background ts).2).2.length =
      (strip_redirection (strip_background ts).2).2.map some := by
  have h1 := strip_redirection_eq_take (strip_background ts).2
  have h2 := strip_background_eq_take ts
  have h3 := length_strip_redirection_le (strip_background ts).2
  have h4 := length_strip_background_le ts
  rw [take_stored ts _ (by omega), take_of_take_eq ts _ _ h2 h1 h3]

theorem strip_background_append (ts : List (List Char)) :
    ts = (strip_background ts).2 ++
      (if (strip_background ts).1 then [ MODIFIER_BACKGROUND] else []) := by
  unfold strip_background
  split
  · rename_i hb
    rcases List.eq_nil_or_concat ts with rfl | ⟨xs, x, rfl⟩
    · simp at hb
    · simp only [List.concat_eq_append, List.getLast?_concat, Option.some.injEq] at hb
      subst hb
      simp
  · simp

theorem strip_redirection_append (ts : List (List Char)) :
    ts = (strip_redirection ts).2 ++
      (match (strip_redirection ts).1 with
       | some f => [ MODIFIER_OUTPUT, f]
       | none => []) := by
  unfold strip_redirection
  split
  · rename_i hr
    rcases List.eq_nil_or_concat ts with rfl | ⟨xs, x, rfl⟩
    · simp at hr
    · simp only [List.concat_eq_append, List.dropLast_concat] at hr
      rcases List.eq_nil_or_concat xs with rfl | ⟨ys, y, rfl⟩
      · simp at hr
      · simp only [List.concat_eq_append, List.getLast?_concat, Option.some.injEq] at hr
        subst hr
        simp
  · simp

/-! ## The parser on lines that fit the argument array -/

/-- Redirection detection is evaluated on the argument tokens that remain
after background stripping. For every line with fewer than MAX_ARGS argument
tokens (so that `parse_args` stays inside its array) `read_command` returns a
command whose `output_f` is set iff, after removing a trailing `&` argument,
at least two argument tokens remain and the second-to-last is `>`; the target
is then the last remaining token and both are dropped from the arguments. In
particular a line with the tokens `exec`, xs, `>`, f, `&` parses to the name
`exec`, the arguments xs, background true and target f. -/
theorem redirection_within_bound (line : List Char)
    (h : (arg_tokens line).length < MAX_ARGS) :
    ∃ cmd, read_command (.line line) = .ok cmd ∧
      (cmd.output_f ≠ none ↔
        2 ≤ (strip_background (arg_tokens line)).2.length ∧
        (strip_background (arg_tokens line)).2[(strip_background (arg_tokens line)).2.length - 2]? =
          some MODIFIER_OUTPUT) ∧
      (cmd.output_f ≠ none →
        cmd.output_f = (strip_background (arg_tokens line)).2.getLast? ∧
        arguments cmd = (strip_background (arg_tokens line)).2.dropLast.dropLast.map some) ∧
      (cmd.output_f = none →
        arguments cmd = (strip_background (arg_tokens line)).2.map some) ∧
      (∀ xs f, tokens line = CMD_EXEC :: (xs ++ [ MODIFIER_OUTPUT, f, MODIFIER_BACKGROUND]) →
        cmd.name = some CMD_EXEC ∧ arguments cmd = xs.map some ∧
        cmd.background = true ∧ cmd.output_f = some f) := by
  refine ⟨_, read_command_eq line h, ?_, ?_, ?_, ?_⟩
  · simp only [strip_redirection]
    generalize (strip_background (arg_tokens line)).2 = rest
    rw [List.getLast?_dropLast]
    by_cases hl : rest.length ≤ 1
    · have : ¬ 2 ≤ rest.length := by omega
      simp [hl, this]
    · have : 2 ≤ rest.length := by omega
      simp only [hl, if_false, this, true_and]
      split
      · rename_i hr
        simp only [hr, iff_true]
        rcases List.eq_nil_or_concat rest with rfl | ⟨xs, x, rfl⟩
        · simp at hl
        · simp
      · rename_i hr
        simp [hr]
  · simp only [arguments]
    rw [take_stored_final]
    simp only [strip_redirection]
    generalize (strip_background (arg_tokens line)).2 = rest
    split <;> simp
  · simp only [arguments]
    rw [take_stored_final]
    simp only [strip_redirection]
    generalize (strip_background (arg_tokens line)).2 = rest
    split
    · rename_i hr
      intro hn
      simp only at hn
      rcases List.eq_nil_or_concat rest with rfl | ⟨xs, x, rfl⟩
      · simp at hr
      · simp at hn
    · simp
  · intro xs f ht
    have hts : arg_tokens line = xs ++ [ MODIFIER_OUTPUT, f, MODIFIER_BACKGROUND] := by
      rw [arg_tokens, ht]; rfl
    have e1 : xs ++ [ MODIFIER_OUTPUT, f, MODIFIER_BACKGROUND] =
        (xs ++ [ MODIFIER_OUTPUT, f]) ++ [ MODIFIER_BACKGROUND] := by simp
    have hb : strip_background (arg_tokens line) = (true, xs ++ [ MODIFIER_OUTPUT, f]) := by
      rw [hts, e1, strip_background, List.getLast?_concat, List.dropLast_concat]
      simp
    have e2 : xs ++ [ MODIFIER_OUTPUT, f] = (xs ++ [ MODIFIER_OUTPUT]) ++ [f] := by simp
    have hr : strip_redirection (xs ++ [ MODIFIER_OUTPUT, f]) = (some f, xs) := by
      rw [e2, strip_redirection, List.dropLast_concat, List.getLast?_concat,
        List.getLast?_concat, List.dropLast_concat]
      simp
    simp only [arguments]
    rw [take_stored_final]
    simp only [hb, hr, ht]
    simp

/-- The line `exec prog a b > out.txt &`. -/
theorem redirection_within_bound_example :
    ∃ cmd, read_command (.line "exec prog a b > out.txt &".toList) = .ok cmd ∧
      cmd.name = some CMD_EXEC ∧
      arguments cmd = [some "prog".toList, some "a".toList, some "b".toList] ∧
      cmd.background = true ∧ cmd.output_f = some "out.txt".toList := by
  obtain ⟨cmd, h1, _, _, _, h5⟩ :=
    redirection_within_bound "exec prog a b > out.txt &".toList (by decide)
  exact ⟨cmd, h1, h5 ["prog".toList, "a".toList, "b".toList] "out.txt".toList (by decide)⟩

/-- Background detection. For every line with fewer than MAX_ARGS argument
tokens `read_command` sets background to true iff the last argument
token is exactly `&`, so it is false when there is no argument token; when it
is true the trailing token is not counted: the arguments are leading tokens of
the argument tokens without the last one, all of them when no redirection is
stripped. -/
theorem background_within_bound (line : List Char)
    (h : (arg_tokens line).length < MAX_ARGS) :
    ∃ cmd, read_command (.line line) = .ok cmd ∧
      (cmd.background = true ↔ (arg_tokens line).getLast? = some MODIFIER_BACKGROUND) ∧
      (cmd.background = true →
        cmd.args.size ≤ (arg_tokens line).length - 1 ∧
        arguments cmd = ((arg_tokens line).dropLast.take cmd.args.size).map some ∧
        (cmd.output_f = none →
          cmd.args.size = (arg_tokens line).length - 1 ∧
          arguments cmd = (arg_tokens line).dropLast.map some)) ∧
      (arg_tokens line = [] → cmd.background = false) := by
  refine ⟨_, read_command_eq line h, ?_, ?_, ?_⟩
  · simp only [strip_background]
    split <;> simp_all
  · simp only [arguments]
    rw [take_stored_final]
    generalize arg_tokens line = ts
    intro hb
    have hs : strip_background ts = (true, ts.dropLast) := by
      unfold strip_background at hb ⊢
      split
      · rfl
      · rename_i hn; simp [hn] at hb
    rw [hs]
    simp only
    have h1 := strip_redirection_eq_take ts.dropLast
    have h2 := length_strip_redirection_le ts.dropLast
    simp only [List.length_dropLast] at h2
    refine ⟨h2, by rw [← h1], ?_⟩
    intro ho
    unfold strip_redirection at ho ⊢
    split
    · rename_i hr
      simp only [hr, if_true] at ho
      rcases List.eq_nil_or_concat ts.dropLast with he | ⟨xs, x, he⟩
      · rw [he] at hr; simp at hr
      · rw [he] at ho; simp at ho
    · simp
  · intro he
    simp [he, strip_background]

/-- The line `exec sleep 5 &`. -/
theorem background_within_bound_example :
    ∃ cmd, read_command (.line "exec sleep 5 &".toList) = .ok cmd ∧
      cmd.background = true ∧ cmd.args.size = 2 ∧
      arguments cmd = [some "sleep".toList, some "5".toList] := by
  obtain ⟨cmd, h1, h2, h3, _⟩ := background_within_bound "exec sleep 5 &".toList (by decide)
  have hb : cmd.background = true := h2.mpr (by decide)
  have ho : cmd.output_f = none := by
    have h5 := read_command_eq "exec sleep 5 &".toList (by decide)
    rw [h1] at h5
    injection h5 with h5
    rw [h5]
    decide
  obtain ⟨_, _, h4⟩ := h3 hb
  obtain ⟨h6, h7⟩ := h4 ho
  exact ⟨cmd, h1, hb, by rw [h6]; decide, by rw [h7]; decide⟩

/-- A line without modifiers. For every line whose space-delimited tokens
are t followed by ts, none of them `&` or `>` (and fewer than MAX_ARGS of
them after the first), `read_command` returns the name t, the argument count
`ts.length`, the arguments ts in order, background false and no output
target. -/
theorem no_modifiers_within_bound (line : List Char) (t : List Char) (ts : List (List Char))
    (ht : tokens line = t :: ts)
    (hm : ∀ x ∈ t :: ts, x ≠ MODIFIER_BACKGROUND ∧ x ≠ MODIFIER_OUTPUT)
    (h : ts.length < MAX_ARGS) :
    ∃ cmd, read_command (.line line) = .ok cmd ∧
      cmd.name = some t ∧ cmd.args.size = ts.length ∧ arguments cmd = ts.map some ∧
      cmd.background = false ∧ cmd.output_f = none := by
  have hts : arg_tokens line = ts := by rw [arg_tokens, ht]; rfl
  have hb : strip_background ts = (false, ts) := by
    unfold strip_background
    split
    · rename_i hl
      exact absurd rfl (hm _ (List.mem_cons_of_mem _ (List.mem_of_getLast?_eq_some hl))).1
    · rfl
  have hr : strip_redirection ts = (none, ts) := by
    unfold strip_redirection
    split
    · rename_i hl
      exact absurd rfl (hm _ (List.mem_cons_of_mem _
        (List.dropLast_subset ts (List.mem_of_getLast?_eq_some hl)))).2
    · rfl
  refine ⟨_, read_command_eq line (by rw [hts]; exact h), ?_, ?_, ?_, ?_, ?_⟩
  · simp [ht]
  · simp [hts, hb, hr]
  · simp only [arguments]
    rw [take_stored_final, hts, hb, hr]
  · simp [hts, hb]
  · simp [hts, hb, hr]

/-- The line `exec ls -l /tmp`. -/
theorem no_modifiers_within_bound_example :
    ∃ cmd, read_command (.line "exec ls -l /tmp".toList) = .ok cmd ∧
      cmd.name = some "exec".toList ∧ cmd.args.size = 3 ∧
      arguments cmd = [some "ls".toList, some "-l".toList, some "/tmp".toList] ∧
      cmd.background = false ∧ cmd.output_f = none :=
  no_modifiers_within_bound "exec ls -l /tmp".toList "exec".toList
    ["ls".toList, "-l".toList, "/tmp".toList] (by decide) (by decide) (by decide)

/-! ## Cropping -/

/-- The copy loop of `crop_args` yields the first `n` entries when that many
have been written. -/
theorem map_range_getD (l : List (Option (List Char))) (n : Nat) (h : n ≤ l.length) :
    (List.range n).map (fun i => l.getD i none) = l.take n := by
  induction n with
  | zero => simp
  | succ n ih =>
    have hn : n < l.length := by omega
    rw [List.range_succ, List.map_append, ih (by omega), List.take_succ]
    simp [List.getElem?_eq_getElem hn]

/-- Cropping a parsed command keeps exactly its arguments. -/
theorem crop_args_stored (ts : List (List Char)) (n : Nat) (h : n ≤ ts.length) :
    crop_args { args := ts.map some ++ [none], size := n } =
      { args := (ts.take n).map some, size := n } := by
  simp only [crop_args]
  rw [map_range_getD _ n (by simp; omega), take_stored ts n h]

/-- The trace of the child branch of `exec` contains the `execvp` call unless
the redirection file could not be opened. -/
theorem execvp_mem_exec_child (e : env) (command : command_t)
    (processes : List (Option process_t))
    (hf : command.output_f = none ∨ e.fopen_ok = true) :
    event.execvp ((crop_args command.args).args.getD 0 none) (crop_args command.args).args ∈
      (exec_child e command processes).events := by
  unfold exec_child
  cases ho : command.output_f with
  | none =>
    cases hx : e.execvp with
    | none => simp
    | some st => by_cases hs : st = -1 <;> simp [hs, finish]
  | some path =>
    have hk : e.fopen_ok = true := by
      rcases hf with hf | hf
      · rw [ho] at hf; cases hf
      · exact hf
    cases hx : e.execvp with
    | none => simp [hk]
    | some st => by_cases hs : st = -1 <;> simp [hs, hk, finish]

/-- `execute_command` on an `exec` command with an argument, in the child. -/
theorem execute_command_exec_child (e : env) (command : command_t)
    (processes : List (Option process_t)) (hn : command.name = some CMD_EXEC)
    (hs : 1 ≤ command.args.size) (hf : e.fork = 0) :
    execute_command e command processes = exec_child e command processes := by
  have h1 : ¬ command.args.size < 1 := by omega
  simp [execute_command, hn, CMD_EXEC, CMD_QUIT, CMD_GLOBALUSAGE, h1, hf]

/-- C4: round trip of cropping. For every line (with fewer than MAX_ARGS
argument tokens) and the command `read_command` returns for it, `crop_args`
of its arguments has the command's final argument count as size and as
length, and holds the leading argument tokens of the line in their order: the
argument tokens are the cropped ones followed by exactly the stripped
modifiers (`>` and the file when a target is set, then `&` when background
is set). For an `exec` command with an argument, the child hands element 0 of
the cropped vector, the first argument token, and the vector itself to
`execvp`. -/
theorem C4_crop_round_trip (line : List Char) (h : (arg_tokens line).length < MAX_ARGS) :
    ∃ cmd, read_command (.line line) = .ok cmd ∧
      (crop_args cmd.args).size = cmd.args.size ∧
      (crop_args cmd.args).args.length = cmd.args.size ∧
      (crop_args cmd.args).args = arguments cmd ∧
      (∃ kept : List (List Char),
        (crop_args cmd.args).args = kept.map some ∧
        arg_tokens line = kept ++ stripped_tail cmd.background cmd.output_f) ∧
      (∀ (e : env) (processes : List (Option process_t)),
        cmd.name = some CMD_EXEC → 1 ≤ cmd.args.size → e.fork = 0 →
        (cmd.output_f = none ∨ e.fopen_ok = true) →
        ∃ prog, (arg_tokens line).head? = some prog ∧
          (crop_args cmd.args).args.head? = some (some prog) ∧
          event.execvp (some prog) (crop_args cmd.args).args ∈
            (execute_command e cmd processes).events) := by
  have h1 := strip_redirection_eq_take (strip_background (arg_tokens line)).2
  have h2 := strip_background_eq_take (arg_tokens line)
  have h3 := length_strip_redirection_le (strip_background (arg_tokens line)).2
  have h4 := length_strip_background_le (arg_tokens line)
  have hk := take_of_take_eq (arg_tokens line) _ _ h2 h1 h3
  have hc := crop_args_stored (arg_tokens line)
    (strip_redirection (strip_background (arg_tokens line)).2).2.length (by omega)
  rw [hk] at hc
  refine ⟨_, read_command_eq line h, ?_, ?_, ?_, ?_, ?_⟩
  · simp [crop_args]
  · simp [crop_args]
  · simp only [arguments]
    rw [take_stored_final, hc]
  · refine ⟨(strip_redirection (strip_background (arg_tokens line)).2).2, by rw [hc], ?_⟩
    have a1 := strip_background_append (arg_tokens line)
    have a2 := strip_redirection_append (strip_background (arg_tokens line)).2
    simp only [stripped_tail]
    rw [← List.append_assoc, ← a2, ← a1]
  · intro e processes hn hs hf ho
    have hm := execvp_mem_exec_child e _ processes ho
    rw [← execute_command_exec_child e _ processes hn hs hf, hc] at hm
    rw [hc]
    simp only at hm hs ⊢
    obtain ⟨prog, rest, hfin⟩ : ∃ prog rest,
        (strip_redirection (strip_background (arg_tokens line)).2).2 = prog :: rest := by
      cases hfin : (strip_redirection (strip_background (arg_tokens line)).2).2 with
      | nil => rw [hfin] at hs; simp at hs
      | cons prog rest => exact ⟨prog, rest, rfl⟩
    have hk1 : (arg_tokens line).take (prog :: rest).length = prog :: rest := by
      rw [← hfin]; exact hk
    have e0 : (List.map some
        (strip_redirection (strip_background (arg_tokens line)).2).2).getD 0 none =
          some prog := by
      rw [hfin]; rfl
    rw [e0] at hm
    refine ⟨prog, ?_, by rw [hfin]; rfl, hm⟩
    cases hat : arg_tokens line with
    | nil => rw [hat] at hk1; simp at hk1
    | cons a as => rw [hat] at hk1; simp at hk1; simp [hk1.1]

/-- C4 at the line `exec prog a b > out.txt &`, in a child whose `fopen` and
`execvp` succeed. -/
theorem C4_crop_round_trip_witness :
    ∃ cmd, read_command (.line "exec prog a b > out.txt &".toList) = .ok cmd ∧
      (crop_args cmd.args).size = cmd.args.size ∧
      (crop_args cmd.args).args.length = cmd.args.size ∧
      (crop_args cmd.args).args = arguments cmd ∧
      (∃ kept : List (List Char),
        (crop_args cmd.args).args = kept.map some ∧
        arg_tokens "exec prog a b > out.txt &".toList =
          kept ++ stripped_tail cmd.background cmd.output_f) ∧
      (∀ (e : env) (processes : List (Option process_t)),
        cmd.name = some CMD_EXEC → 1 ≤ cmd.args.size → e.fork = 0 →
        (cmd.output_f = none ∨ e.fopen_ok = true) →
        ∃ prog, (arg_tokens "exec prog a b > out.txt &".toList).head? = some prog ∧
          (crop_args cmd.args).args.head? = some (some prog) ∧
          event.execvp (some prog) (crop_args cmd.args).args ∈
            (execute_command e cmd processes).events) :=
  C4_crop_round_trip "exec prog a b > out.txt &".toList (by decide)

/-! ## The process table -/

/-- The loop of `add_process` from index `i` over `n` slots: it runs to the
end exactly when none of these slots is NULL, and otherwise stops at the first
NULL slot `k`, stores the new entry there and returns `k`. -/
theorem add_process_loop_spec (id : Int) (processes : List (Option process_t)) :
    ∀ (n i : Nat),
      (add_process_loop id processes n i = none ∧
        ∀ j, i ≤ j → j < i + n → processes.getD j none ≠ none) ∨
      (∃ k, add_process_loop id processes n i =
          some (k, processes.set k (some { pid := id, position := k })) ∧
        i ≤ k ∧ k < i + n ∧ processes.getD k none = none ∧
        ∀ j, i ≤ j → j < k → processes.getD j none ≠ none) := by
  intro n
  induction n with
  | zero =>
    intro i
    left
    exact ⟨rfl, fun j h1 h2 => by omega⟩
  | succ n ih =>
    intro i
    rw [add_process_loop]
    cases hi : processes.getD i none with
    | none =>
      right
      exact ⟨i, rfl, le_refl _, by omega, hi, fun j h1 h2 => by omega⟩
    | some p =>
      simp only
      rcases ih (i + 1) with ⟨h1, h2⟩ | ⟨k, h1, h2, h3, h4, h5⟩
      · left
        refine ⟨h1, fun j hj1 hj2 => ?_⟩
        by_cases hji : j = i
        · subst hji; rw [hi]; simp
        · exact h2 j (by omega) (by omega)
      · right
        refine ⟨k, h1, by omega, by omega, h4, fun j hj1 hj2 => ?_⟩
        by_cases hji : j = i
        · subst hji; rw [hi]; simp
        · exact h5 j (by omega) hj2

/-- Reading a slot of a table: NULL or an entry. -/
theorem getD_eq_none_iff (processes : List (Option process_t)) (j : Nat)
    (hj : j < processes.length) :
    processes.getD j none = none ↔ processes[j]? = some none := by
  simp [List.getElem?_eq_getElem hj]

theorem getD_ne_none_iff (processes : List (Option process_t)) (j : Nat)
    (hj : j < processes.length) :
    processes.getD j none ≠ none ↔ ∃ p, processes[j]? = some (some p) := by
  simp only [List.getD_eq_getElem?_getD, List.getElem?_eq_getElem hj, Option.getD_some,
    Option.some.injEq]
  cases processes[j] <;> simp

/-- `add_process` on a table with a NULL slot. -/
theorem add_process_free (id : Int) (processes : List (Option process_t))
    (hlen : processes.length = MAX_PROCESSES)
    (hfree : ∃ i, i < MAX_PROCESSES ∧ processes[i]? = some none) :
    ∃ k, k < MAX_PROCESSES ∧ processes[k]? = some none ∧
      (∀ j, j < k → processes[j]? ≠ some none) ∧
      add_process id processes =
        ([], (k : Int), processes.set k (some { pid := id, position := k })) := by
  obtain ⟨i, hi, hie⟩ := hfree
  rcases add_process_loop_spec id processes MAX_PROCESSES 0 with ⟨_, h2⟩ | ⟨k, h1, _, h3, h4, h5⟩
  · exact absurd ((getD_eq_none_iff processes i (by omega)).mpr hie) (h2 i (by omega) (by omega))
  · simp only [Nat.zero_add] at h3
    refine ⟨k, h3, (getD_eq_none_iff processes k (by omega)).mp h4, fun j hj hje => ?_, ?_⟩
    · exact h5 j (by omega) hj ((getD_eq_none_iff processes j (by omega)).mpr hje)
    · simp [add_process, h1]

/-- `add_process` on a table without a NULL slot. -/
theorem add_process_full (id : Int) (processes : List (Option process_t))
    (hlen : processes.length = MAX_PROCESSES)
    (hfull : ∀ i, i < MAX_PROCESSES → ∃ p, processes[i]? = some (some p)) :
    add_process id processes =
      ([.printf "Too many processes running.\n" []], -1, processes) := by
  rcases add_process_loop_spec id processes MAX_PROCESSES 0 with ⟨h1, _⟩ | ⟨k, _, _, h3, h4, _⟩
  · simp [add_process, h1]
  · simp only [Nat.zero_add] at h3
    obtain ⟨p, hp⟩ := hfull k h3
    exact absurd h4 ((getD_ne_none_iff processes k (by omega)).mpr ⟨p, hp⟩)

/-- `add_process` on a table whose occupied slots are exactly the leading
ones: the new entry goes right after them. -/
theorem add_process_after_occupied (id : Int) (occ rest : List (Option process_t))
    (hocc : ∀ x ∈ occ, x ≠ none) (hlen : occ.length < MAX_PROCESSES) :
    add_process id (occ ++ none :: rest) =
      ([], (occ.length : Int),
        occ ++ some { pid := id, position := (occ.length : Int) } :: rest) := by
  have hat : (occ ++ none :: rest).getD occ.length none = none := by
    rw [List.getD_eq_getElem?_getD, List.getElem?_append_right (le_refl _)]
    simp
  have hbefore : ∀ j, j < occ.length → (occ ++ none :: rest).getD j none ≠ none := by
    intro j hj
    simp only [List.getD_eq_getElem?_getD, List.getElem?_append_left hj,
      List.getElem?_eq_getElem hj, Option.getD_some]
    exact hocc _ (List.getElem_mem hj)
  rcases add_process_loop_spec id (occ ++ none :: rest) MAX_PROCESSES 0 with
    ⟨_, h2⟩ | ⟨k, h1, _, _, h4, h5⟩
  · exact absurd hat (h2 occ.length (by omega) (by omega))
  · have hk : k = occ.length := by
      by_contra hne
      rcases Nat.lt_or_gt_of_ne hne with hlt | hgt
      · exact hbefore k hlt h4
      · exact h5 occ.length (by omega) hgt hat
    subst hk
    simp [add_process, h1]

/-- Registrations into a table whose occupied slots are the leading ones
return the following slot indices in increasing order. -/
theorem register_all_after_occupied (ids : List Int) :
    ∀ (occ : List (Option process_t)), (∀ x ∈ occ, x ≠ none) →
      occ.length + ids.length ≤ MAX_PROCESSES →
      (register_all ids (occ ++ List.replicate (MAX_PROCESSES - occ.length) none)).1 =
        (List.range' occ.length ids.length).map Int.ofNat := by
  induction ids with
  | nil => intro occ _ _; simp [register_all]
  | cons id ids ih =>
    intro occ hocc hlen
    simp only [List.length_cons] at hlen
    have hm : MAX_PROCESSES - occ.length = (MAX_PROCESSES - (occ.length + 1)) + 1 := by omega
    rw [hm, List.replicate_succ, register_all, add_process_after_occupied id occ _ hocc (by omega)]
    simp only
    have hocc1 : ∀ x ∈ occ ++ [some ({ pid := id, position := (occ.length : Int) } : process_t)],
        x ≠ none := by
      intro x hx
      rcases List.mem_append.mp hx with hx | hx
      · exact hocc x hx
      · simp at hx; rw [hx]; simp
    have := ih (occ ++ [some { pid := id, position := (occ.length : Int) }]) hocc1
      (by simp only [List.length_append, List.length_cons, List.length_nil]; omega)
    simp only [List.length_append, List.length_cons, List.length_nil, List.append_assoc,
      List.singleton_append, Nat.zero_add] at this
    rw [this, List.length_cons, List.range'_succ]
    simp

/-- C5: `add_process` takes the first empty slot. For every table of
MAX_PROCESSES slots with at least one empty slot and every pid, `add_process`
returns the smallest index whose slot is empty, stores there an entry with
that pid and that position and leaves every other slot as it was (and prints
nothing); hence, starting from the empty table, successive registrations (at
most MAX_PROCESSES of them) return the slots 0, 1, 2, ... in order. -/
theorem C5_add_process_first_empty (id : Int) (processes : List (Option process_t))
    (hlen : processes.length = MAX_PROCESSES)
    (hfree : ∃ i, i < MAX_PROCESSES ∧ processes[i]? = some none) :
    (∃ k, k < MAX_PROCESSES ∧ processes[k]? = some none ∧
      (∀ j, j < k → processes[j]? ≠ some none) ∧
      (add_process id processes).1 = [] ∧
      (add_process id processes).2.1 = (k : Int) ∧
      (add_process id processes).2.2.length = MAX_PROCESSES ∧
      (add_process id processes).2.2[k]? = some (some { pid := id, position := (k : Int) }) ∧
      (∀ j, j ≠ k → (add_process id processes).2.2[j]? = processes[j]?)) ∧
    (∀ ids : List Int, ids.length ≤ MAX_PROCESSES →
      (register_all ids (List.replicate MAX_PROCESSES none)).1 =
        (List.range ids.length).map Int.ofNat) := by
  constructor
  · obtain ⟨k, hk, h1, h2, h3⟩ := add_process_free id processes hlen hfree
    refine ⟨k, hk, h1, h2, ?_, ?_, ?_, ?_, ?_⟩
    · rw [h3]
    · rw [h3]
    · rw [h3]; simpa using hlen
    · rw [h3]
      simp only
      rw [List.getElem?_set_self (by omega)]
    · intro j hj
      rw [h3]
      simp only
      rw [List.getElem?_set_ne (Ne.symm hj)]
  · intro ids hids
    have := register_all_after_occupied ids [] (by simp) (by simpa using hids)
    simpa [List.range_eq_range'] using this

/-- C5 at a table whose slots 0 and 2 are occupied: slot 1 is taken. -/
theorem C5_add_process_first_empty_witness :
    (add_process 42
      [some { pid := 7, position := 0 }, none, some { pid := 9, position := 2 },
        none, none, none, none, none]).2.1 = 1 ∧
    (register_all [11, 12, 13, 14, 15, 16, 17, 18] (List.replicate MAX_PROCESSES none)).1 =
      [0, 1, 2, 3, 4, 5, 6, 7] := by
  have h := C5_add_process_first_empty 42
    [some { pid := 7, position := 0 }, none, some { pid := 9, position := 2 },
      none, none, none, none, none] (by decide) ⟨1, by decide, by decide⟩
  exact ⟨by decide, h.2 [11, 12, 13, 14, 15, 16, 17, 18] (by decide)⟩

/-- C6: `add_process` on a full table. For every table of MAX_PROCESSES slots
and every pid: when all slots are occupied `add_process` returns -1 and the
table is unchanged (it prints one message); and it returns -1 only when all
slots are occupied. -/
theorem C6_add_process_full (id : Int) (processes : List (Option process_t))
    (hlen : processes.length = MAX_PROCESSES) :
    ((∀ i, i < MAX_PROCESSES → ∃ p, processes[i]? = some (some p)) →
      add_process id processes =
        ([.printf "Too many processes running.\n" []], -1, processes)) ∧
    ((add_process id processes).2.1 = -1 →
      ∀ i, i < MAX_PROCESSES → ∃ p, processes[i]? = some (some p)) := by
  refine ⟨add_process_full id processes hlen, fun hret i hi => ?_⟩
  rcases add_process_loop_spec id processes MAX_PROCESSES 0 with ⟨_, h2⟩ | ⟨k, h1, _, _, _, _⟩
  · exact (getD_ne_none_iff processes i (by omega)).mp (h2 i (by omega) (by omega))
  · simp only [add_process, h1] at hret
    omega

/-- C6 at a full table. -/
theorem C6_add_process_full_witness :
    add_process 99
      [some { pid := 1, position := 0 }, some { pid := 2, position := 1 },
        some { pid := 3, position := 2 }, some { pid := 4, position := 3 },
        some { pid := 5, position := 4 }, some { pid := 6, position := 5 },
        some { pid := 7, position := 6 }, some { pid := 8, position := 7 }] =
      ([.printf "Too many processes running.\n" []], -1,
        [some { pid := 1, position := 0 }, some { pid := 2, position := 1 },
          some { pid := 3, position := 2 }, some { pid := 4, position := 3 },
          some { pid := 5, position := 4 }, some { pid := 6, position := 5 },
          some { pid := 7, position := 6 }, some { pid := 8, position := 7 }]) :=
  (C6_add_process_full 99 _ (by decide)).1
    (by intro i hi; have hi8 : i < 8 := hi; interval_cases i <;> exact ⟨_, rfl⟩)

/-! ## Termination of the tracked processes -/

/-- The occupied entries among `n + 1` slots from index `i`: the one of slot
`i`, if any, then those of the `n` slots from `i + 1`. -/
theorem tracked_segment_succ (processes : List (Option process_t)) (i n : Nat) :
    tracked ((processes.drop i).take (n + 1)) =
      (match processes.getD i none with
       | some p => [p]
       | none => []) ++ tracked ((processes.drop (i + 1)).take n) := by
  by_cases hi : i < processes.length
  · rw [List.drop_eq_getElem_cons hi, List.take_succ_cons, List.getD_eq_getElem?_getD,
      List.getElem?_eq_getElem hi]
    cases processes[i] <;> simp [tracked]
  · have h1 : processes.drop i = [] := List.drop_eq_nil_of_le (by omega)
    have h2 : processes.drop (i + 1) = [] := List.drop_eq_nil_of_le (by omega)
    have h3 : processes.getD i none = none := by
      rw [List.getD_eq_getElem?_getD, List.getElem?_eq_none (by omega)]
      rfl
    rw [h1, h2, h3]
    simp [tracked]

theorem tracked_segment_all (processes : List (Option process_t))
    (hlen : processes.length = MAX_PROCESSES) :
    tracked ((processes.drop 0).take MAX_PROCESSES) = tracked processes := by
  rw [List.drop_zero, ← hlen, List.take_length]

theorem kills_append (xs ys : List event) : kills (xs ++ ys) = kills xs ++ kills ys := by
  induction xs with
  | nil => rfl
  | cons x xs ih => cases x <;> simp [kills, ih]

/-- The signals of the loop of `terminate_processes`: one SIGKILL for the pid
of each occupied slot it visits, in slot order. -/
theorem kills_terminate_processes_loop (processes : List (Option process_t)) :
    ∀ (n i : Nat),
      kills (terminate_processes_loop processes n i) =
        (tracked ((processes.drop i).take n)).map (fun p => (p.pid, signal.SIGKILL)) := by
  intro n
  induction n with
  | zero => intro i; simp [terminate_processes_loop, kills, tracked]
  | succ n ih =>
    intro i
    rw [terminate_processes_loop, kills_append, ih (i + 1), tracked_segment_succ]
    cases processes.getD i none <;> simp [kills]

/-- The loop of `terminate_processes` does nothing on slots that are all
NULL. -/
theorem terminate_processes_loop_nil (processes : List (Option process_t)) :
    ∀ (n i : Nat), tracked ((processes.drop i).take n) = [] →
      terminate_processes_loop processes n i = [] := by
  intro n
  induction n with
  | zero => intro i _; rfl
  | succ n ih =>
    intro i h
    rw [tracked_segment_succ] at h
    rw [terminate_processes_loop]
    cases hg : processes.getD i none with
    | none =>
      rw [hg] at h
      simp only [List.nil_append] at h ⊢
      exact ih (i + 1) h
    | some p => rw [hg] at h; simp at h

/-- C7: the signals of `terminate_processes`. For every table of
MAX_PROCESSES slots the kill signals it issues are exactly one SIGKILL for the
pid of each occupied slot, in slot order, and none for an empty slot; on a
table without an occupied slot it issues no signal and does nothing else
either. -/
theorem C7_terminate_processes_kills (processes : List (Option process_t))
    (hlen : processes.length = MAX_PROCESSES) :
    kills (terminate_processes processes).1 =
      (tracked processes).map (fun p => (p.pid, signal.SIGKILL)) ∧
    (tracked processes = [] →
      kills (terminate_processes processes).1 = [] ∧ (terminate_processes processes).1 = []) := by
  have hk := kills_terminate_processes_loop processes MAX_PROCESSES 0
  rw [tracked_segment_all processes hlen] at hk
  refine ⟨hk, fun he => ⟨?_, ?_⟩⟩
  · show kills (terminate_processes_loop processes MAX_PROCESSES 0) = []
    rw [hk, he]; rfl
  · exact terminate_processes_loop_nil processes MAX_PROCESSES 0
      (by rw [tracked_segment_all processes hlen]; exact he)

/-- C7 at a table whose slots 1 and 3 are occupied. -/
theorem C7_terminate_processes_kills_witness :
    kills (terminate_processes
      [none, some { pid := 30, position := 1 }, none, some { pid := 40, position := 3 },
        none, none, none, none]).1 = [(30, signal.SIGKILL), (40, signal.SIGKILL)] :=
  (C7_terminate_processes_kills
    [none, some { pid := 30, position := 1 }, none, some { pid := 40, position := 3 },
      none, none, none, none] (by decide)).1

/-- C8, refuted as stated: after `terminate_processes` on a table whose slot 0
is occupied, slot 0 is not empty, and a following `add_process` returns slot 1
and not slot 0. -/
theorem C8_slots_not_reset_counterexample :
    ¬ ((terminate_processes
          [some { pid := 5, position := 0 }, none, none, none, none, none, none, none]).2[0]? =
        some none) ∧
    (add_process 6 (terminate_processes
        [some { pid := 5, position := 0 }, none, none, none, none, none, none, none]).2).2.1
      = 1 := by
  decide

theorem frees_append (xs ys : List event) : frees (xs ++ ys) = frees xs ++ frees ys := by
  induction xs with
  | nil => rfl
  | cons x xs ih => cases x <;> simp [frees, ih]

/-- The loop of `terminate_processes` frees the entry of each slot it visits
that is not NULL. -/
theorem frees_terminate_processes_loop (processes : List (Option process_t)) :
    ∀ (n i : Nat),
      frees (terminate_processes_loop processes n i) =
        (List.range' i n).filter (fun j => (processes.getD j none).isSome) := by
  intro n
  induction n with
  | zero => intro i; simp [terminate_processes_loop, frees]
  | succ n ih =>
    intro i
    rw [terminate_processes_loop, frees_append, ih (i + 1), List.range'_succ, List.filter_cons]
    cases processes.getD i none <;> simp [frees]

/-- C8, amended: `terminate_processes` frees the entry of every slot that is
not NULL but does not change the table. For every table, after it returns
every slot holds what it held before, so the slots that were occupied are
still not NULL and a following `add_process` returns what it would have
returned before the call (slot 0 exactly when slot 0 was empty already); a
table whose slots are all empty is still all empty. -/
theorem C8_terminate_processes_keeps_slots (processes : List (Option process_t)) :
    (terminate_processes processes).2 = processes ∧
    frees (terminate_processes processes).1 =
      (List.range MAX_PROCESSES).filter (fun j => (processes.getD j none).isSome) ∧
    (∀ (i : Nat) (p : process_t), processes[i]? = some (some p) →
      (terminate_processes processes).2[i]? = some (some p)) ∧
    (∀ id, add_process id (terminate_processes processes).2 = add_process id processes) ∧
    (terminate_processes (List.replicate MAX_PROCESSES none)).2 =
      List.replicate MAX_PROCESSES none := by
  refine ⟨rfl, ?_, fun _ _ h => h, fun _ => rfl, rfl⟩
  rw [List.range_eq_range']
  exact frees_terminate_processes_loop processes MAX_PROCESSES 0

/-- C8 (amended) at a table whose slot 0 is occupied: the slot still holds its
entry after `terminate_processes`, whose only `free` is that of slot 0. -/
theorem C8_terminate_processes_keeps_slots_witness :
    (terminate_processes
      [some { pid := 5, position := 0 }, none, none, none, none, none, none, none]).2[0]? =
        some (some { pid := 5, position := 0 }) ∧
    frees (terminate_processes
      [some { pid := 5, position := 0 }, none, none, none, none, none, none, none]).1 = [0] := by
  have h := C8_terminate_processes_keeps_slots
    [some { pid := 5, position := 0 }, none, none, none, none, none, none, none]
  exact ⟨h.2.2.1 0 { pid := 5, position := 0 } (by decide), by rw [h.2.1]; decide⟩

/-! ## The `quit` command -/

/-- The loop of the `quit` branch runs to the end when the slots it visits are
all NULL. -/
theorem quit_loop_none (e : env) (processes : List (Option process_t)) :
    ∀ (n i : Nat), tracked ((processes.drop i).take n) = [] →
      quit_loop e processes n i = none := by
  intro n
  induction n with
  | zero => intro i _; rfl
  | succ n ih =>
    intro i h
    rw [tracked_segment_succ] at h
    rw [quit_loop]
    cases hg : processes.getD i none with
    | none =>
      rw [hg] at h
      simp only [List.nil_append] at h ⊢
      exact ih (i + 1) h
    | some p => rw [hg] at h; simp at h

/-- The loop of the `quit` branch ends in `quit_confirm` when one of the slots
it visits is not NULL. -/
theorem quit_loop_some (e : env) (processes : List (Option process_t)) :
    ∀ (n i : Nat), tracked ((processes.drop i).take n) ≠ [] →
      quit_loop e processes n i = some (quit_confirm e processes) := by
  intro n
  induction n with
  | zero => intro i h; simp [tracked] at h
  | succ n ih =>
    intro i h
    rw [tracked_segment_succ] at h
    rw [quit_loop]
    cases hg : processes.getD i none with
    | none =>
      rw [hg] at h
      simp only [List.nil_append] at h ⊢
      exact ih (i + 1) h
    | some p => rfl

/-- `execute_command` on `quit` without arguments. -/
theorem execute_command_quit (e : env) (command : command_t)
    (processes : List (Option process_t)) (hlen : processes.length = MAX_PROCESSES)
    (hn : command.name = some CMD_QUIT) (hs : command.args.size = 0) :
    execute_command e command processes =
      if tracked processes = [] then finish [] processes else quit_confirm e processes := by
  simp only [execute_command, hn, hs, if_true, Nat.lt_irrefl, gt_iff_lt, if_false]
  by_cases ht : tracked processes = []
  · rw [quit_loop_none e processes MAX_PROCESSES 0
      (by rw [tracked_segment_all processes hlen]; exact ht)]
    simp [ht]
  · rw [quit_loop_some e processes MAX_PROCESSES 0
      (by rw [tracked_segment_all processes hlen]; exact ht)]
    simp [ht]

/-- The loop of `terminate_processes` neither prompts nor reads. -/
theorem count_terminate_processes_loop (processes : List (Option process_t)) :
    ∀ (n i : Nat),
      prompts (terminate_processes_loop processes n i) = 0 ∧
      reads (terminate_processes_loop processes n i) = 0 := by
  intro n
  induction n with
  | zero => intro i; simp [terminate_processes_loop, prompts, reads]
  | succ n ih =>
    intro i
    obtain ⟨h1, h2⟩ := ih (i + 1)
    simp only [prompts, reads] at h1 h2 ⊢
    rw [terminate_processes_loop, List.count_append, List.count_append, h1, h2]
    cases processes.getD i none <;> simp [List.count_cons, QUIT_PROMPT]

/-- C9, what the code does: `quit` without arguments on the empty table (the
command that `read_command` returns for the line `quit`) prints the blank
line and returns to the read loop; the shell does not exit. -/
theorem C9_quit_on_empty_table_returns (e : env) :
    read_command (.line CMD_QUIT) =
      .ok { name := some CMD_QUIT, args := { args := [none], size := 0 },
            background := false, output_f := none } ∧
    execute_command e
      { name := some CMD_QUIT, args := { args := [none], size := 0 },
        background := false, output_f := none }
      (List.replicate MAX_PROCESSES none) =
      { events := [.printf "\n" []], processes := List.replicate MAX_PROCESSES none,
        status := .returned } := by
  constructor
  · decide
  · rw [execute_command_quit e _ _ (by decide) rfl rfl]
    rfl

/-- C10: the confirmation of `quit`. For every command named `quit` with zero
arguments and every table of MAX_PROCESSES slots: with no occupied slot there
is no prompt and no read; with an occupied slot there is exactly one prompt
and one read, however many slots are occupied, and when the line read is
exactly `y` every tracked pid gets a SIGKILL, in slot order, and the shell
exits with EXIT_SUCCESS, while for every other line no signal is sent, the
function returns and the table is unchanged. -/
theorem C10_quit_confirmation (e : env) (command : command_t)
    (processes : List (Option process_t)) (hlen : processes.length = MAX_PROCESSES)
    (hn : command.name = some CMD_QUIT) (hs : command.args.size = 0) :
    (tracked processes = [] →
      prompts (execute_command e command processes).events = 0 ∧
      reads (execute_command e command processes).events = 0) ∧
    (tracked processes ≠ [] →
      prompts (execute_command e command processes).events = 1 ∧
      reads (execute_command e command processes).events = 1 ∧
      ∀ reply, e.stdin = .line reply →
        (reply = ['y'] →
          kills (execute_command e command processes).events =
            (tracked processes).map (fun p => (p.pid, signal.SIGKILL)) ∧
          (execute_command e command processes).status = .exited EXIT_SUCCESS) ∧
        (reply ≠ ['y'] →
          kills (execute_command e command processes).events = [] ∧
          (execute_command e command processes).status = .returned ∧
          (execute_command e command processes).processes = processes)) := by
  rw [execute_command_quit e command processes hlen hn hs]
  have hk := kills_terminate_processes_loop processes MAX_PROCESSES 0
  rw [tracked_segment_all processes hlen] at hk
  obtain ⟨hp, hr⟩ := count_terminate_processes_loop processes MAX_PROCESSES 0
  simp only [prompts, reads] at hp hr
  constructor
  · intro ht
    simp [ht, finish, prompts, reads, List.count_cons, QUIT_PROMPT]
  · intro ht
    simp only [ht, if_false]
    refine ⟨?_, ?_, ?_⟩
    · unfold quit_confirm
      cases hin : read_into e.stdin with
      | exit c => simp [prompts, List.count_cons]
      | undefined => simp [prompts, List.count_cons]
      | ok input =>
        by_cases hy : input = ['y']
        · simp only [hy, if_true, prompts, terminate_processes, List.count_append, hp]
          simp [List.count_cons, QUIT_PROMPT]
        · simp only [hy, if_false, prompts]
          simp [List.count_cons, QUIT_PROMPT]
    · unfold quit_confirm
      cases hin : read_into e.stdin with
      | exit c => simp [reads, List.count_cons]
      | undefined => simp [reads, List.count_cons]
      | ok input =>
        by_cases hy : input = ['y']
        · simp only [hy, if_true, reads, terminate_processes, List.count_append, hr]
          simp [List.count_cons]
        · simp only [hy, if_false, reads]
          simp [List.count_cons]
    · intro reply hreply
      constructor
      · intro hy
        subst hy
        simp only [quit_confirm, read_into, hreply, if_true, terminate_processes, kills_append,
          hk]
        simp [kills]
      · intro hy
        simp [quit_confirm, read_into, hreply, hy, kills]

/-- C10 at a table whose slots 1 and 3 are occupied, with the reply `y`. -/
theorem C10_quit_confirmation_witness :
    prompts (execute_command
      { stdin := .line ['y'], fork := 0, fopen_ok := true, execvp := none, getpid := 1,
        wait_status := 0 }
      { name := some CMD_QUIT, args := { args := [none], size := 0 }, background := false,
        output_f := none }
      [none, some { pid := 30, position := 1 }, none, some { pid := 40, position := 3 },
        none, none, none, none]).events = 1 ∧
    kills (execute_command
      { stdin := .line ['y'], fork := 0, fopen_ok := true, execvp := none, getpid := 1,
        wait_status := 0 }
      { name := some CMD_QUIT, args := { args := [none], size := 0 }, background := false,
        output_f := none }
      [none, some { pid := 30, position := 1 }, none, some { pid := 40, position := 3 },
        none, none, none, none]).events = [(30, signal.SIGKILL), (40, signal.SIGKILL)] := by
  have h := (C10_quit_confirmation
    { stdin := .line ['y'], fork := 0, fopen_ok := true, execvp := none, getpid := 1,
      wait_status := 0 }
    { name := some CMD_QUIT, args := { args := [none], size := 0 }, background := false,
      output_f := none }
    [none, some { pid := 30, position := 1 }, none, some { pid := 40, position := 3 },
      none, none, none, none] (by decide) rfl rfl).2 (by decide)
  exact ⟨h.1, ((h.2.2 ['y'] rfl).1 rfl).1⟩

/-! ## Arity violations -/

/-- C11: an arity violation aborts only the current command. For every
command named `quit` or `globalusage` with a non-zero argument count, and
every command named `exec` with zero arguments, `execute_command` prints the
two lines of the usage error and the blank line, and returns: the table is
unchanged, there is no fork, no signal, no prompt, no read and no wait. -/
theorem C11_arity_violation (e : env) (command : command_t)
    (processes : List (Option process_t))
    (h : (command.name = some CMD_QUIT ∧ 0 < command.args.size) ∨
      (command.name = some CMD_GLOBALUSAGE ∧ 0 < command.args.size) ∨
      (command.name = some CMD_EXEC ∧ command.args.size = 0)) :
    (execute_command e command processes).status = .returned ∧
    (execute_command e command processes).processes = processes ∧
    forks (execute_command e command processes).events = 0 ∧
    kills (execute_command e command processes).events = [] ∧
    prompts (execute_command e command processes).events = 0 ∧
    reads (execute_command e command processes).events = 0 ∧
    waits (execute_command e command processes).events = [] ∧
    (command.name = some CMD_QUIT →
      outputs (execute_command e command processes).events =
        ["Invalid arguments for `quit` command.\n", "Usage: quit\n", "\n"]) ∧
    (command.name = some CMD_GLOBALUSAGE →
      outputs (execute_command e command processes).events =
        ["Invalid arguments for `globalusage` command.\n", "Usage: globalusage\n", "\n"]) ∧
    (command.name = some CMD_EXEC →
      outputs (execute_command e command processes).events =
        ["Invalid arguments for `exec` command.\n",
          "Usage: exec <command> [args] [> <file>] [&]\n", "\n"]) := by
  rcases h with ⟨hn, hs⟩ | ⟨hn, hs⟩ | ⟨hn, hs⟩
  · simp [execute_command, hn, hs, finish, forks, kills, prompts, reads, waits, outputs,
      CMD_QUIT, CMD_GLOBALUSAGE, CMD_EXEC, QUIT_PROMPT, List.count_cons]
  · simp [execute_command, hn, hs, finish, forks, kills, prompts, reads, waits, outputs,
      CMD_QUIT, CMD_GLOBALUSAGE, CMD_EXEC, QUIT_PROMPT, List.count_cons]
  · simp [execute_command, hn, hs, finish, forks, kills, prompts, reads, waits, outputs,
      CMD_QUIT, CMD_GLOBALUSAGE, CMD_EXEC, QUIT_PROMPT, List.count_cons]

/-- C11 at the command of the line `quit now`, on a table with one tracked
process. -/
theorem C11_arity_violation_witness :
    (execute_command
      { stdin := .line ['y'], fork := 7, fopen_ok := true, execvp := none, getpid := 1,
        wait_status := 0 }
      { name := some CMD_QUIT, args := { args := [some ['n', 'o', 'w'], none], size := 1 },
        background := false, output_f := none }
      [some { pid := 30, position := 0 }, none, none, none, none, none, none, none]).status =
        .returned ∧
    (execute_command
      { stdin := .line ['y'], fork := 7, fopen_ok := true, execvp := none, getpid := 1,
        wait_status := 0 }
      { name := some CMD_QUIT, args := { args := [some ['n', 'o', 'w'], none], size := 1 },
        background := false, output_f := none }
      [some { pid := 30, position := 0 }, none, none, none, none, none, none, none]).processes =
        [some { pid := 30, position := 0 }, none, none, none, none, none, none, none] := by
  have h := C11_arity_violation
    { stdin := .line ['y'], fork := 7, fopen_ok := true, execvp := none, getpid := 1,
      wait_status := 0 }
    { name := some CMD_QUIT, args := { args := [some ['n', 'o', 'w'], none], size := 1 },
      background := false, output_f := none }
    [some { pid := 30, position := 0 }, none, none, none, none, none, none, none]
    (Or.inl ⟨rfl, by decide⟩)
  exact ⟨h.1, h.2.1⟩

/-! ## The parent branch of `exec` -/

/-- `execute_command` on an `exec` command with an argument, in the parent of
a successful fork. -/
theorem execute_command_exec_parent (e : env) (command : command_t)
    (processes : List (Option process_t)) (hn : command.name = some CMD_EXEC)
    (hs : 1 ≤ command.args.size) (hf1 : e.fork ≠ -1) (hf0 : e.fork ≠ 0) :
    execute_command e command processes = exec_parent e command processes := by
  have h1 : ¬ command.args.size < 1 := by omega
  simp [execute_command, hn, CMD_EXEC, CMD_QUIT, CMD_GLOBALUSAGE, h1, hf1, hf0]

/-- The parent branch when `add_process` finds the empty slot `k`. -/
theorem exec_parent_registered (e : env) (command : command_t)
    (processes : List (Option process_t)) (k : Nat)
    (hadd : add_process e.fork processes =
      ([], (k : Int), processes.set k (some { pid := e.fork, position := (k : Int) }))) :
    exec_parent e command processes =
      { events :=
          if command.background then
            [.fork, .printf "Process %d added to running processes.\n" [e.fork],
              .printf "\n" []]
          else
            [.fork, .printf "Process %d added to running processes.\n" [e.fork],
              .waitpid e.fork,
              .printf "Process %d exited with status %d.\n" [e.fork, e.wait_status],
              .printf "\n" []],
        processes := processes.set k (some { pid := e.fork, position := (k : Int) }),
        status := .returned } := by
  have hk : ¬ ((k : Int) = -1) := by omega
  cases hb : command.background <;> simp [exec_parent, hadd, hk, hb, finish]

/-- The parent branch when the table is full. -/
theorem exec_parent_full (e : env) (command : command_t)
    (processes : List (Option process_t))
    (hadd : add_process e.fork processes =
      ([.printf "Too many processes running.\n" []], -1, processes)) :
    exec_parent e command processes =
      { events := [.fork, .printf "Too many processes running.\n" [],
          .printf "Error adding process.\n" []],
        processes := processes, status := .returned } := by
  simp [exec_parent, hadd]

/-- C12: the parent of a successful `exec`. For every command named `exec`
with at least one argument, every table of MAX_PROCESSES slots with an empty
slot and every value of `fork` other than -1 and 0: the child's pid is stored
in the first empty slot, the function returns with that entry in the table,
and after the registration the parent waits for exactly that pid when
background is false and does not wait at all when background is true. -/
theorem C12_exec_parent_registers_and_waits (e : env) (command : command_t)
    (processes : List (Option process_t)) (hlen : processes.length = MAX_PROCESSES)
    (hn : command.name = some CMD_EXEC) (hs : 1 ≤ command.args.size)
    (hf1 : e.fork ≠ -1) (hf0 : e.fork ≠ 0)
    (hfree : ∃ i, i < MAX_PROCESSES ∧ processes[i]? = some none) :
    ∃ k, k < MAX_PROCESSES ∧ processes[k]? = some none ∧
      (∀ j, j < k → processes[j]? ≠ some none) ∧
      (execute_command e command processes).processes =
        processes.set k (some { pid := e.fork, position := (k : Int) }) ∧
      (execute_command e command processes).processes[k]? =
        some (some { pid := e.fork, position := (k : Int) }) ∧
      (execute_command e command processes).status = .returned ∧
      forks (execute_command e command processes).events = 1 ∧
      (command.background = false →
        waits (execute_command e command processes).events = [e.fork] ∧
        (execute_command e command processes).events =
          [.fork, .printf "Process %d added to running processes.\n" [e.fork],
            .waitpid e.fork,
            .printf "Process %d exited with status %d.\n" [e.fork, e.wait_status],
            .printf "\n" []]) ∧
      (command.background = true →
        waits (execute_command e command processes).events = [] ∧
        (execute_command e command processes).events =
          [.fork, .printf "Process %d added to running processes.\n" [e.fork],
            .printf "\n" []]) := by
  obtain ⟨k, hk, h1, h2, h3⟩ := add_process_free e.fork processes hlen hfree
  rw [execute_command_exec_parent e command processes hn hs hf1 hf0,
    exec_parent_registered e command processes k h3]
  refine ⟨k, hk, h1, h2, rfl, ?_, rfl, ?_, ?_, ?_⟩
  · simp only
    rw [List.getElem?_set_self (by omega)]
  · cases hb : command.background <;> simp [forks, List.count_cons]
  · intro hb
    simp [hb, waits]
  · intro hb
    simp [hb, waits]

/-- C12 at a foreground `exec ls` on a table whose slot 0 is occupied, with
the fork returning 77. -/
theorem C12_exec_parent_registers_and_waits_witness :
    (execute_command
      { stdin := .error, fork := 77, fopen_ok := true, execvp := none, getpid := 1,
        wait_status := 0 }
      { name := some CMD_EXEC, args := { args := [some ['l', 's'], none], size := 1 },
        background := false, output_f := none }
      [some { pid := 30, position := 0 }, none, none, none, none, none, none, none]).processes
      = [some { pid := 30, position := 0 }, some { pid := 77, position := 1 },
          none, none, none, none, none, none] ∧
    waits (execute_command
      { stdin := .error, fork := 77, fopen_ok := true, execvp := none, getpid := 1,
        wait_status := 0 }
      { name := some CMD_EXEC, args := { args := [some ['l', 's'], none], size := 1 },
        background := false, output_f := none }
      [some { pid := 30, position := 0 }, none, none, none, none, none, none, none]).events
      = [77] := by
  obtain ⟨k, _, _, _, _, _, _, _, h8, _⟩ := C12_exec_parent_registers_and_waits
    { stdin := .error, fork := 77, fopen_ok := true, execvp := none, getpid := 1,
      wait_status := 0 }
    { name := some CMD_EXEC, args := { args := [some ['l', 's'], none], size := 1 },
      background := false, output_f := none }
    [some { pid := 30, position := 0 }, none, none, none, none, none, none, none]
    (by decide) rfl (by decide) (by decide) (by decide) ⟨1, by decide, by decide⟩
  exact ⟨by decide, (h8 rfl).1⟩

/-- C13, refuted as stated: on a full table whose slot 0 holds an entry with
pid 77, an `exec ls` whose fork returns 77 leaves the table as it is, so the
child's pid is in a slot afterwards and a later `terminate_processes` sends it
a SIGKILL. -/
theorem C13_child_pid_in_stale_slot_counterexample :
    (∃ p ∈ tracked (execute_command
        { stdin := .error, fork := 77, fopen_ok := true, execvp := none, getpid := 1,
          wait_status := 0 }
        { name := some CMD_EXEC, args := { args := [some ['l', 's'], none], size := 1 },
          background := false, output_f := none }
        [some { pid := 77, position := 0 }, some { pid := 2, position := 1 },
          some { pid := 3, position := 2 }, some { pid := 4, position := 3 },
          some { pid := 5, position := 4 }, some { pid := 6, position := 5 },
          some { pid := 7, position := 6 }, some { pid := 8, position := 7 }]).processes,
      p.pid = 77) ∧
    ((77 : Int), signal.SIGKILL) ∈
      kills (terminate_processes (execute_command
        { stdin := .error, fork := 77, fopen_ok := true, execvp := none, getpid := 1,
          wait_status := 0 }
        { name := some CMD_EXEC, args := { args := [some ['l', 's'], none], size := 1 },
          background := false, output_f := none }
        [some { pid := 77, position := 0 }, some { pid := 2, position := 1 },
          some { pid := 3, position := 2 }, some { pid := 4, position := 3 },
          some { pid := 5, position := 4 }, some { pid := 6, position := 5 },
          some { pid := 7, position := 6 }, some { pid := 8, position := 7 }]).processes).1 := by
  decide

/-- C13, amended: `exec` on a full table. For every command named `exec` with
at least one argument, every table of MAX_PROCESSES slots that are all
occupied and every value of `fork` other than -1 and 0: the fork has
happened, the parent prints the two error lines and returns at once, without
waiting, whatever the background flag, and the table is unchanged. The child
gets no slot: its pid is in a slot afterwards exactly when an entry with that
pid was in the table before the call, and a later `terminate_processes` sends
exactly the signals of the entries tracked before, so it signals the child's
pid exactly in that case. -/
theorem C13_exec_table_full (e : env) (command : command_t)
    (processes : List (Option process_t)) (hlen : processes.length = MAX_PROCESSES)
    (hn : command.name = some CMD_EXEC) (hs : 1 ≤ command.args.size)
    (hf1 : e.fork ≠ -1) (hf0 : e.fork ≠ 0)
    (hfull : ∀ i, i < MAX_PROCESSES → ∃ p, processes[i]? = some (some p)) :
    (execute_command e command processes).events =
      [.fork, .printf "Too many processes running.\n" [],
        .printf "Error adding process.\n" []] ∧
    forks (execute_command e command processes).events = 1 ∧
    waits (execute_command e command processes).events = [] ∧
    (execute_command e command processes).status = .returned ∧
    (execute_command e command processes).processes = processes ∧
    kills (terminate_processes (execute_command e command processes).processes).1 =
      (tracked processes).map (fun p => (p.pid, signal.SIGKILL)) ∧
    ((∃ p ∈ tracked (execute_command e command processes).processes, p.pid = e.fork) ↔
      ∃ p ∈ tracked processes, p.pid = e.fork) ∧
    ((e.fork, signal.SIGKILL) ∈
        kills (terminate_processes (execute_command e command processes).processes).1 ↔
      ∃ p ∈ tracked processes, p.pid = e.fork) := by
  have hk := kills_terminate_processes_loop processes MAX_PROCESSES 0
  rw [tracked_segment_all processes hlen] at hk
  rw [execute_command_exec_parent e command processes hn hs hf1 hf0,
    exec_parent_full e command processes (add_process_full e.fork processes hlen hfull)]
  refine ⟨rfl, by simp [forks, List.count_cons], by simp [waits], rfl, rfl, hk, Iff.rfl, ?_⟩
  simp only
  show (e.fork, signal.SIGKILL) ∈ kills (terminate_processes_loop processes MAX_PROCESSES 0) ↔ _
  rw [hk]
  constructor
  · intro hmem
    obtain ⟨p, hp, hpe⟩ := List.mem_map.mp hmem
    exact ⟨p, hp, by simpa using hpe⟩
  · rintro ⟨p, hp, hpe⟩
    exact List.mem_map.mpr ⟨p, hp, by rw [hpe]⟩

/-- C13 (amended) at a foreground `exec ls` on a full table that tracks the
pids 1 to 8, with the fork returning 77: no wait, and no signal for 77. -/
theorem C13_exec_table_full_witness :
    (execute_command
      { stdin := .error, fork := 77, fopen_ok := true, execvp := none, getpid := 1,
        wait_status := 0 }
      { name := some CMD_EXEC, args := { args := [some ['l', 's'], none], size := 1 },
        background := false, output_f := none }
      [some { pid := 1, position := 0 }, some { pid := 2, position := 1 },
        some { pid := 3, position := 2 }, some { pid := 4, position := 3 },
        some { pid := 5, position := 4 }, some { pid := 6, position := 5 },
        some { pid := 7, position := 6 }, some { pid := 8, position := 7 }]).events =
      [.fork, .printf "Too many processes running.\n" [],
        .printf "Error adding process.\n" []] ∧
    ((77 : Int), signal.SIGKILL) ∉
      kills (terminate_processes (execute_command
        { stdin := .error, fork := 77, fopen_ok := true, execvp := none, getpid := 1,
          wait_status := 0 }
        { name := some CMD_EXEC, args := { args := [some ['l', 's'], none], size := 1 },
          background := false, output_f := none }
        [some { pid := 1, position := 0 }, some { pid := 2, position := 1 },
          some { pid := 3, position := 2 }, some { pid := 4, position := 3 },
          some { pid := 5, position := 4 }, some { pid := 6, position := 5 },
          some { pid := 7, position := 6 }, some { pid := 8, position := 7 }]).processes).1 := by
  have h := C13_exec_table_full
    { stdin := .error, fork := 77, fopen_ok := true, execvp := none, getpid := 1,
      wait_status := 0 }
    { name := some CMD_EXEC, args := { args := [some ['l', 's'], none], size := 1 },
      background := false, output_f := none }
    [some { pid := 1, position := 0 }, some { pid := 2, position := 1 },
      some { pid := 3, position := 2 }, some { pid := 4, position := 3 },
      some { pid := 5, position := 4 }, some { pid := 6, position := 5 },
      some { pid := 7, position := 6 }, some { pid := 8, position := 7 }]
    (by decide) rfl (by decide) (by decide) (by decide)
    (by intro i hi; have hi8 : i < 8 := hi; interval_cases i <;> exact ⟨_, rfl⟩)
  exact ⟨h.1, fun hmem => absurd (h.2.2.2.2.2.2.2.mp hmem) (by decide)⟩

/-! ## The child branch of `exec` after a failure -/

/-- C14, what the code does: in the child (`fork` returned 0) a failed
`execvp` (here for the command of the line `exec nosuch`) is followed by the
error message and the blank line, and a failed `fopen` (here for the command
of the line `exec ls > /nodir/out`) by the error message; in both cases
`execute_command` returns to the read loop and the child process does not
exit. -/
theorem C14_child_returns_after_failure (stdin : read_result) (getpid wait_status : Int)
    (processes : List (Option process_t)) :
    read_command (.line "exec nosuch".toList) =
      .ok { name := some CMD_EXEC, args := { args := [some "nosuch".toList, none], size := 1 },
            background := false, output_f := none } ∧
    execute_command
      { stdin := stdin, fork := 0, fopen_ok := true, execvp := some (-1), getpid := getpid,
        wait_status := wait_status }
      { name := some CMD_EXEC, args := { args := [some "nosuch".toList, none], size := 1 },
        background := false, output_f := none } processes =
      { events := [.fork, .execvp (some "nosuch".toList) [some "nosuch".toList],
          .printf "Error executing command.\n" [], .printf "\n" []],
        processes := processes, status := .returned } ∧
    read_command (.line "exec ls > /nodir/out".toList) =
      .ok { name := some CMD_EXEC,
            args := { args := [some "ls".toList, some ">".toList, some "/nodir/out".toList, none],
                      size := 1 },
            background := false, output_f := some "/nodir/out".toList } ∧
    execute_command
      { stdin := stdin, fork := 0, fopen_ok := false, execvp := none, getpid := getpid,
        wait_status := wait_status }
      { name := some CMD_EXEC,
        args := { args := [some "ls".toList, some ">".toList, some "/nodir/out".toList, none],
                  size := 1 },
        background := false, output_f := some "/nodir/out".toList } processes =
      { events := [.fork, .fopen_append "/nodir/out".toList,
          .printf "Error opening file.\n" []],
        processes := processes, status := .returned } := by
  refine ⟨by decide, ?_, by decide, ?_⟩
  · rw [execute_command_exec_child _ _ processes rfl (by decide) rfl]
    simp [exec_child, crop_args, finish, List.range_succ]
  · rw [execute_command_exec_child _ _ processes rfl (by decide) rfl]
    simp [exec_child]

/-! ## Lines without a token -/

theorem tokens_replicate_space (n : Nat) : tokens (List.replicate n ' ') = [] := by
  induction n with
  | zero => exact tokens_nil
  | succ n ih => rw [List.replicate_succ, tokens_cons_space, ih]

/-- C15, what the code does: for the empty line and every line of spaces only
`read_command` returns a command with a NULL name, zero arguments, background
false and no output target; `execute_command` then hands the NULL name to
`strcmp`, which is undefined: nothing is printed, the unknown-command branch
is not reached. -/
theorem C15_empty_line_null_name (n : Nat) (e : env) (processes : List (Option process_t)) :
    read_command (.line (List.replicate n ' ')) =
      .ok { name := none, args := { args := [none], size := 0 }, background := false,
            output_f := none } ∧
    execute_command e
      { name := none, args := { args := [none], size := 0 }, background := false,
        output_f := none } processes =
      { events := [], processes := processes, status := .undefined } := by
  constructor
  · have ht : arg_tokens (List.replicate n ' ') = [] := by
      rw [arg_tokens, tokens_replicate_space]; rfl
    rw [read_command_eq _ (by rw [ht]; decide), ht, tokens_replicate_space]
    simp [strip_background, strip_redirection]
  · rfl

/-! ## Runs of spaces -/

theorem split_spaces_ne_nil (cs : List Char) : split_spaces cs ≠ [] := by
  rw [split_spaces_eq]; simp

/-- Splitting at a single space splits the pieces. -/
theorem split_spaces_append_space (a b : List Char) :
    split_spaces (a ++ ' ' :: b) = split_spaces a ++ split_spaces b := by
  induction a with
  | nil => simp [split_spaces]
  | cons c a ih =>
    by_cases hc : c = ' '
    · subst hc
      simp [split_spaces, ih]
    · rw [List.cons_append, split_spaces, if_neg hc, ih, split_spaces, if_neg hc]
      cases hs : split_spaces a with
      | nil => exact absurd hs (split_spaces_ne_nil a)
      | cons w ws => simp

theorem tokens_append_space (a b : List Char) :
    tokens (a ++ ' ' :: b) = tokens a ++ tokens b := by
  simp [tokens, split_spaces_append_space]

theorem tokens_replicate_space_append (n : Nat) (b : List Char) :
    tokens (List.replicate n ' ' ++ b) = tokens b := by
  induction n with
  | zero => simp
  | succ n ih => rw [List.replicate_succ, List.cons_append, tokens_cons_space, ih]

/-- A run of one or more spaces separates tokens like a single space. -/
theorem tokens_append_spaces (a b : List Char) (k : Nat) (hk : 1 ≤ k) :
    tokens (a ++ List.replicate k ' ' ++ b) = tokens a ++ tokens b := by
  obtain ⟨j, rfl⟩ : ∃ j, k = j + 1 := ⟨k - 1, by omega⟩
  rw [List.replicate_succ, List.append_assoc, List.cons_append, tokens_append_space,
    tokens_replicate_space_append]

theorem not_mem_split_spaces (cs : List Char) : ∀ w ∈ split_spaces cs, ' ' ∉ w := by
  induction cs with
  | nil => simp [split_spaces]
  | cons c cs ih =>
    by_cases hc : c = ' '
    · subst hc
      intro w hw
      simp only [split_spaces, if_true, List.mem_cons] at hw
      rcases hw with rfl | hw
      · simp
      · exact ih w hw
    · intro w hw
      rw [split_spaces, if_neg hc] at hw
      cases hs : split_spaces cs with
      | nil => exact absurd hs (split_spaces_ne_nil cs)
      | cons v vs =>
        rw [hs] at hw ih
        simp only [List.mem_cons] at hw
        rcases hw with rfl | hw
        · intro hm
          rcases List.mem_cons.mp hm with h1 | h1
          · exact hc h1.symm
          · exact ih v (List.mem_cons_self _ _) h1
        · exact ih w (List.mem_cons_of_mem _ hw)

/-- A token is not empty and holds no space. -/
theorem mem_tokens (line : List Char) : ∀ t ∈ tokens line, t ≠ [] ∧ ' ' ∉ t := by
  intro t ht
  simp only [tokens, List.mem_filter] at ht
  refine ⟨?_, not_mem_split_spaces line t ht.1⟩
  intro he
  rw [he] at ht
  simp at ht

/-- C16, refuted as stated: the line `exec a  b` has two consecutive spaces
between `a` and `b` and three single spaces in all, but `read_command` returns
two arguments, `a` and `b`, and no empty argument. -/
theorem C16_runs_of_spaces_counterexample :
    ∃ cmd, read_command (.line "exec a  b".toList) = .ok cmd ∧
      "exec a  b".toList.count ' ' = 3 ∧
      cmd.args.size = 2 ∧
      arguments cmd = [some ['a'], some ['b']] ∧
      some [] ∉ cmd.args.args :=
  ⟨{ name := some CMD_EXEC, args := { args := [some ['a'], some ['b'], none], size := 2 },
     background := false, output_f := none },
    by decide, by decide, by decide, by decide, by decide⟩

/-- C16, amended: the tokenizer splits on runs of spaces. For every line (with
fewer than MAX_ARGS argument tokens) `parse_args` stores exactly the maximal
runs of non-space characters that follow the first one, in order, and reports
their number; none of them is empty or holds a space; and a run of k spaces
(k at least 1) between two parts of a line separates tokens as one space does:
the tokens of the line are those of the part before followed by those of the
part after. -/
theorem C16_runs_of_spaces_collapse (line : List Char)
    (h : (arg_tokens line).length < MAX_ARGS) :
    parse_args (strtok line).2 =
      .ok { args := (arg_tokens line).map some ++ [none], size := (arg_tokens line).length } ∧
    (∃ cmd, read_command (.line line) = .ok cmd ∧
      cmd.args.args = (arg_tokens line).map some ++ [none]) ∧
    (∀ t ∈ tokens line, t ≠ [] ∧ ' ' ∉ t) ∧
    (∀ (a b : List Char) (k : Nat), 1 ≤ k → line = a ++ List.replicate k ' ' ++ b →
      tokens line = tokens a ++ tokens b ∧ tokens line = tokens (a ++ ' ' :: b)) := by
  have h3 : tokens (strtok line).2 = arg_tokens line := by
    rw [(strtok_tokens line).2, arg_tokens, List.drop_one]
  refine ⟨?_, ⟨_, read_command_eq line h, rfl⟩, mem_tokens line, ?_⟩
  · rw [parse_args_eq _ (by rw [h3]; exact h), h3]
  · intro a b k hk hl
    rw [hl, tokens_append_spaces a b k hk, tokens_append_space]
    exact ⟨rfl, rfl⟩

/-- C16 (amended) at the line `exec a  b`. -/
theorem C16_runs_of_spaces_collapse_witness :
    parse_args (strtok "exec a  b".toList).2 =
      .ok { args := [some ['a'], some ['b'], none], size := 2 } ∧
    tokens "exec a  b".toList = tokens "exec a b".toList := by
  have h := C16_runs_of_spaces_collapse "exec a  b".toList (by decide)
  refine ⟨by rw [h.1]; decide, ?_⟩
  exact (h.2.2.2 "exec a".toList "b".toList 2 (by decide) (by decide)).2

/-! ## More argument tokens than the array holds -/

/-- `read_command` on a line with MAX_ARGS argument tokens or more is
undefined. -/
theorem read_command_overflow (line : List Char) (h : MAX_ARGS ≤ (arg_tokens line).length) :
    read_command (.line line) = .undefined := by
  have h3 : tokens (strtok line).2 = arg_tokens line := by
    rw [(strtok_tokens line).2, arg_tokens, List.drop_one]
  simp only [read_command, read_into]
  rw [parse_args_overflow _ (by rw [h3]; exact h)]

set_option maxRecDepth 20000 in
/-- C17, what the code does: the line `exec` followed by 64 arguments `x`,
each after a single space, has 132 characters, and `parse_args` stores its 64
tokens at the indices 0 to 63 and then the closing NULL at index 64, past the
end of the array: `read_command` is undefined on it. -/
theorem C17_store_past_the_array :
    (CMD_EXEC ++ (List.replicate 64 [' ', 'x']).flatten).length = 132 ∧
    132 ≤ BUFFER_SIZE ∧
    (arg_tokens (CMD_EXEC ++ (List.replicate 64 [' ', 'x']).flatten)).length = 64 ∧
    parse_args_loop 1 [] ((List.replicate 64 ['x']).map some) = some .undefined ∧
    parse_args (strtok (CMD_EXEC ++ (List.replicate 64 [' ', 'x']).flatten)).2 = .undefined ∧
    read_command (.line (CMD_EXEC ++ (List.replicate 64 [' ', 'x']).flatten)) = .undefined := by
  have hl : (arg_tokens (CMD_EXEC ++ (List.replicate 64 [' ', 'x']).flatten)).length = 64 := by
    decide
  have h3 : tokens (strtok (CMD_EXEC ++ (List.replicate 64 [' ', 'x']).flatten)).2 =
      arg_tokens (CMD_EXEC ++ (List.replicate 64 [' ', 'x']).flatten) := by
    rw [(strtok_tokens _).2, arg_tokens, List.drop_one]
  refine ⟨by decide, by decide, hl, by decide, ?_, ?_⟩
  · exact parse_args_overflow _ (by rw [h3, hl]; decide)
  · exact read_command_overflow _ (by rw [hl]; decide)

/-! ## Detection on the cropped vector -/

/-- Reading entry `i` of a cropped vector. -/
theorem getD_map_some (ts : List (List Char)) (i : Nat) :
    (ts.map some).getD i none = ts[i]? := by
  induction ts generalizing i with
  | nil => simp
  | cons t ts ih =>
    cases i with
    | zero => simp
    | succ i => simpa using ih i

theorem is_background_cropped (ts : List (List Char)) :
    is_background { args := ts.map some, size := ts.length } =
      decide (ts.getLast? = some MODIFIER_BACKGROUND) := by
  simp only [is_background, getD_map_some, List.getLast?_eq_getElem?]
  cases ts with
  | nil => simp
  | cons t ts => simp [Bool.beq_eq_decide_eq]

theorem redirects_output_cropped (ts : List (List Char)) :
    redirects_output { args := ts.map some, size := ts.length } =
      decide (ts.dropLast.getLast? = some MODIFIER_OUTPUT) := by
  simp only [redirects_output, getD_map_some, List.getLast?_dropLast]
  by_cases hn : ts.length ≤ 1
  · have : ¬ ts.length > 1 := by omega
    simp [hn, this]
  · have h1 : ts.length > 1 := by omega
    simp only [hn, if_false, h1, decide_True, Bool.true_and]
    rw [Bool.beq_eq_decide_eq]

/-- C18, refuted as stated: the line `exec a & > f &` ends in exactly one `&`
token, and on the cropped argument vector of its command, `a` and `&`,
background detection is true again. -/
theorem C18_not_idempotent_counterexample :
    (arg_tokens "exec a & > f &".toList).getLast? = some MODIFIER_BACKGROUND ∧
    (arg_tokens "exec a & > f &".toList).dropLast.getLast? ≠ some MODIFIER_BACKGROUND ∧
    read_command (.line "exec a & > f &".toList) =
      .ok { name := some CMD_EXEC,
            args := { args := [some ['a'], some ['&'], some ['>'], some ['f'], some ['&'], none],
                      size := 2 },
            background := true, output_f := some ['f'] } ∧
    crop_args
      { args := [some ['a'], some ['&'], some ['>'], some ['f'], some ['&'], none], size := 2 } =
      { args := [some ['a'], some ['&']], size := 2 } ∧
    is_background { args := [some ['a'], some ['&']], size := 2 } = true := by
  decide

/-- C18, amended: each modifier is stripped once. For every line (with fewer
than MAX_ARGS argument tokens) the cropped argument vector of its command
holds the kept argument tokens, and on it background detection is true
exactly when the last kept token is `&`, and redirection detection is true
exactly when the second-to-last kept token is `>`; so when no kept token is
`&` or `>` no modifier is detected again. -/
theorem C18_detection_on_cropped (line : List Char)
    (h : (arg_tokens line).length < MAX_ARGS) :
    ∃ cmd kept, read_command (.line line) = .ok cmd ∧
      crop_args cmd.args = { args := kept.map some, size := kept.length } ∧
      arg_tokens line = kept ++ stripped_tail cmd.background cmd.output_f ∧
      (is_background (crop_args cmd.args) = true ↔
        kept.getLast? = some MODIFIER_BACKGROUND) ∧
      (redirects_output (crop_args cmd.args) = true ↔
        kept.dropLast.getLast? = some MODIFIER_OUTPUT) ∧
      ((∀ x ∈ kept, x ≠ MODIFIER_BACKGROUND ∧ x ≠ MODIFIER_OUTPUT) →
        is_background (crop_args cmd.args) = false ∧
        redirects_output (crop_args cmd.args) = false) := by
  have h1 := strip_redirection_eq_take (strip_background (arg_tokens line)).2
  have h2 := strip_background_eq_take (arg_tokens line)
  have h3 := length_strip_redirection_le (strip_background (arg_tokens line)).2
  have h4 := length_strip_background_le (arg_tokens line)
  have hk := take_of_take_eq (arg_tokens line) _ _ h2 h1 h3
  have hc := crop_args_stored (arg_tokens line)
    (strip_redirection (strip_background (arg_tokens line)).2).2.length (by omega)
  rw [hk] at hc
  refine ⟨_, (strip_redirection (strip_background (arg_tokens line)).2).2,
    read_command_eq line h, hc, ?_, ?_, ?_, ?_⟩
  · have a1 := strip_background_append (arg_tokens line)
    have a2 := strip_redirection_append (strip_background (arg_tokens line)).2
    simp only [stripped_tail]
    rw [← List.append_assoc, ← a2, ← a1]
  · rw [hc, is_background_cropped]
    simp
  · rw [hc, redirects_output_cropped]
    simp
  · intro hm
    rw [hc, is_background_cropped, redirects_output_cropped]
    constructor
    · rw [decide_eq_false_iff_not]
      intro hl
      exact (hm _ (List.mem_of_getLast?_eq_some hl)).1 rfl
    · rw [decide_eq_false_iff_not]
      intro hl
      exact (hm _ (List.dropLast_subset _ (List.mem_of_getLast?_eq_some hl))).2 rfl

/-- C18 (amended) at the line `exec sleep 5 > log &`. -/
theorem C18_detection_on_cropped_witness :
    ∃ cmd kept, read_command (.line "exec sleep 5 > log &".toList) = .ok cmd ∧
      crop_args cmd.args = { args := kept.map some, size := kept.length } ∧
      kept = ["sleep".toList, "5".toList] ∧
      is_background (crop_args cmd.args) = false ∧
      redirects_output (crop_args cmd.args) = false := by
  obtain ⟨cmd, kept, h1, h2, h3, _, _, h6⟩ :=
    C18_detection_on_cropped "exec sleep 5 > log &".toList (by decide)
  have h5 := read_command_eq "exec sleep 5 > log &".toList (by decide)
  rw [h1] at h5
  injection h5 with h5
  have hk : kept = ["sleep".toList, "5".toList] := by
    have hc : crop_args cmd.args =
        { args := [some "sleep".toList, some "5".toList], size := 2 } := by
      rw [h5]; decide
    rw [h2] at hc
    injection hc with hc1 hc2
    have hi : Function.Injective (some : List Char → Option (List Char)) :=
      fun _ _ hab => Option.some.inj hab
    exact (List.map_injective_iff.mpr hi) hc1
  refine ⟨cmd, kept, h1, h2, hk, h6 ?_⟩
  rw [hk]
  decide

/-! ## The blank line at the end of a turn -/

/-- C19, what the code does: four paths of `execute_command` leave through a
`return` placed before the final `printf("\n")`, so their last output is the
error or abort message and not the blank line: `quit` aborted at the prompt,
a failed fork, a full table, and a redirection file that cannot be opened in
the child. A path that reaches the end of the function, here the unknown
command, does end with the blank line. -/
theorem C19_returns_without_blank_line :
    ((execute_command
        { stdin := .line ['n'], fork := 0, fopen_ok := true, execvp := none, getpid := 1,
          wait_status := 0 }
        { name := some CMD_QUIT, args := { args := [none], size := 0 }, background := false,
          output_f := none }
        [some { pid := 30, position := 0 }, none, none, none, none, none, none, none]).status =
        .returned ∧
      (outputs (execute_command
        { stdin := .line ['n'], fork := 0, fopen_ok := true, execvp := none, getpid := 1,
          wait_status := 0 }
        { name := some CMD_QUIT, args := { args := [none], size := 0 }, background := false,
          output_f := none }
        [some { pid := 30, position := 0 }, none, none, none, none, none, none,
          none]).events).getLast? = some "Aborted.\n") ∧
    ((execute_command
        { stdin := .error, fork := -1, fopen_ok := true, execvp := none, getpid := 1,
          wait_status := 0 }
        { name := some CMD_EXEC, args := { args := [some ['l', 's'], none], size := 1 },
          background := false, output_f := none }
        (List.replicate MAX_PROCESSES none)).status = .returned ∧
      (outputs (execute_command
        { stdin := .error, fork := -1, fopen_ok := true, execvp := none, getpid := 1,
          wait_status := 0 }
        { name := some CMD_EXEC, args := { args := [some ['l', 's'], none], size := 1 },
          background := false, output_f := none }
        (List.replicate MAX_PROCESSES none)).events).getLast? = some "Error forking.\n") ∧
    ((execute_command
        { stdin := .error, fork := 77, fopen_ok := true, execvp := none, getpid := 1,
          wait_status := 0 }
        { name := some CMD_EXEC, args := { args := [some ['l', 's'], none], size := 1 },
          background := false, output_f := none }
        (List.replicate MAX_PROCESSES (some { pid := 5, position := 0 }))).status = .returned ∧
      (outputs (execute_command
        { stdin := .error, fork := 77, fopen_ok := true, execvp := none, getpid := 1,
          wait_status := 0 }
        { name := some CMD_EXEC, args := { args := [some ['l', 's'], none], size := 1 },
          background := false, output_f := none }
        (List.replicate MAX_PROCESSES (some { pid := 5, position := 0 }))).events).getLast? =
        some "Error adding process.\n") ∧
    ((execute_command
        { stdin := .error, fork := 0, fopen_ok := false, execvp := none, getpid := 1,
          wait_status := 0 }
        { name := some CMD_EXEC, args := { args := [some ['l', 's'], none], size := 1 },
          background := false, output_f := some ['f'] }
        (List.replicate MAX_PROCESSES none)).status = .returned ∧
      (outputs (execute_command
        { stdin := .error, fork := 0, fopen_ok := false, execvp := none, getpid := 1,
          wait_status := 0 }
        { name := some CMD_EXEC, args := { args := [some ['l', 's'], none], size := 1 },
          background := false, output_f := some ['f'] }
        (List.replicate MAX_PROCESSES none)).events).getLast? =
        some "Error opening file.\n") ∧
    (outputs (execute_command
        { stdin := .error, fork := 0, fopen_ok := false, execvp := none, getpid := 1,
          wait_status := 0 }
        { name := some ['l', 's'], args := { args := [none], size := 0 }, background := false,
          output_f := none }
        (List.replicate MAX_PROCESSES none)).events).getLast? = some "\n" := by
  refine ⟨⟨by decide, by decide⟩, ⟨by decide, by decide⟩, ⟨by decide, by decide⟩,
    ⟨by decide, by decide⟩, by decide⟩

/-! ## Entries are never retired -/

theorem outputs_append (xs ys : List event) : outputs (xs ++ ys) = outputs xs ++ outputs ys := by
  induction xs with
  | nil => rfl
  | cons x xs ih => cases x <;> simp [outputs, ih]

theorem registrations_append (xs ys : List event) :
    registrations (xs ++ ys) = registrations xs + registrations ys := by
  simp [registrations, outputs_append, List.count_append]

theorem registrations_terminate_processes_loop (processes : List (Option process_t)) :
    ∀ (n i : Nat), registrations (terminate_processes_loop processes n i) = 0 := by
  intro n
  induction n with
  | zero => intro i; simp [terminate_processes_loop, registrations, outputs]
  | succ n ih =>
    intro i
    rw [terminate_processes_loop, registrations_append, ih (i + 1)]
    cases processes.getD i none <;> simp [registrations, outputs, List.count_cons]

/-- The confirmation of `quit` leaves the table and registers nothing. -/
theorem quit_confirm_table (e : env) (processes : List (Option process_t)) :
    (quit_confirm e processes).processes = processes ∧
    registrations (quit_confirm e processes).events = 0 := by
  unfold quit_confirm
  cases read_into e.stdin with
  | exit c => simp [registrations, outputs, QUIT_PROMPT, List.count_cons]
  | undefined => simp [registrations, outputs, QUIT_PROMPT, List.count_cons]
  | ok input =>
    by_cases hy : input = ['y']
    · simp only [hy, if_true, terminate_processes, registrations_append,
        registrations_terminate_processes_loop]
      simp [registrations, outputs, QUIT_PROMPT, List.count_cons]
    · simp [hy, registrations, outputs, QUIT_PROMPT, List.count_cons]

theorem quit_loop_eq (e : env) (processes : List (Option process_t)) :
    ∀ (n i : Nat) (r : result), quit_loop e processes n i = some r →
      r = quit_confirm e processes := by
  intro n
  induction n with
  | zero => intro i r h; simp [quit_loop] at h
  | succ n ih =>
    intro i r h
    rw [quit_loop] at h
    cases hg : processes.getD i none with
    | none => rw [hg] at h; exact ih (i + 1) r h
    | some p => rw [hg] at h; simp only [Option.some.injEq] at h; exact h.symm

/-- The child branch of `exec` leaves the table and registers nothing. -/
theorem exec_child_table (e : env) (command : command_t)
    (processes : List (Option process_t)) :
    (exec_child e command processes).processes = processes ∧
    registrations (exec_child e command processes).events = 0 := by
  unfold exec_child
  cases command.output_f with
  | none =>
    cases e.execvp with
    | none => simp [registrations, outputs]
    | some st =>
      by_cases hs : st = -1 <;> simp [hs, finish, registrations, outputs, List.count_cons]
  | some path =>
    cases e.fopen_ok with
    | false => simp [registrations, outputs, List.count_cons]
    | true =>
      cases e.execvp with
      | none => simp [registrations, outputs]
      | some st =>
        by_cases hs : st = -1 <;> simp [hs, finish, registrations, outputs, List.count_cons]

/-- The parent branch of `exec` either leaves the table and registers
nothing, or fills one NULL slot with an entry for the child and reports one
registration. -/
theorem exec_parent_table (e : env) (command : command_t)
    (processes : List (Option process_t)) :
    ((exec_parent e command processes).processes = processes ∧
      registrations (exec_parent e command processes).events = 0) ∨
    (∃ k, k < MAX_PROCESSES ∧ processes.getD k none = none ∧
      (exec_parent e command processes).processes =
        processes.set k (some { pid := e.fork, position := (k : Int) }) ∧
      registrations (exec_parent e command processes).events = 1) := by
  rcases add_process_loop_spec e.fork processes MAX_PROCESSES 0 with
    ⟨h1, _⟩ | ⟨k, h1, _, h3, h4, _⟩
  · left
    have hadd : add_process e.fork processes =
        ([.printf "Too many processes running.\n" []], -1, processes) := by
      simp [add_process, h1]
    rw [exec_parent_full e command processes hadd]
    simp [registrations, outputs, List.count_cons]
  · right
    have hadd : add_process e.fork processes =
        ([], (k : Int), processes.set k (some { pid := e.fork, position := (k : Int) })) := by
      simp [add_process, h1]
    rw [exec_parent_registered e command processes k hadd]
    refine ⟨k, by omega, h4, rfl, ?_⟩
    cases command.background <;> simp [registrations, outputs, List.count_cons]

/-- One turn either leaves the table and registers nothing, or fills one NULL
slot with an entry for the forked child and reports one registration. -/
theorem execute_command_table (e : env) (command : command_t)
    (processes : List (Option process_t)) :
    ((execute_command e command processes).processes = processes ∧
      registrations (execute_command e command processes).events = 0) ∨
    (∃ k, k < MAX_PROCESSES ∧ processes.getD k none = none ∧
      (execute_command e command processes).processes =
        processes.set k (some { pid := e.fork, position := (k : Int) }) ∧
      registrations (execute_command e command processes).events = 1) := by
  unfold execute_command
  cases command.name with
  | none => left; simp [registrations, outputs]
  | some name =>
    simp only
    by_cases hq : name = CMD_QUIT
    · simp only [hq, if_true]
      by_cases hs : command.args.size > 0
      · left; simp [hs, finish, registrations, outputs, List.count_cons]
      · simp only [hs, if_false]
        cases hl : quit_loop e processes MAX_PROCESSES 0 with
        | none => left; simp [finish, registrations, outputs, List.count_cons]
        | some r =>
          left
          rw [quit_loop_eq e processes MAX_PROCESSES 0 r hl]
          exact quit_confirm_table e processes
    · simp only [hq, if_false]
      by_cases hg : name = CMD_GLOBALUSAGE
      · simp only [hg, if_true]
        left
        by_cases hs : command.args.size > 0 <;>
          simp [hs, finish, print_usage, registrations, outputs, List.count_cons]
      · simp only [hg, if_false]
        by_cases hx : name = CMD_EXEC
        · simp only [hx, if_true]
          by_cases hs : command.args.size < 1
          · left; simp [hs, finish, registrations, outputs, List.count_cons]
          · simp only [hs, if_false]
            by_cases hf1 : e.fork = -1
            · left; simp [hf1, registrations, outputs, List.count_cons]
            · simp only [hf1, if_false]
              by_cases hf0 : e.fork = 0
              · simp only [hf0, if_true]
                left
                exact exec_child_table e command processes
              · simp only [hf0, if_false]
                exact exec_parent_table e command processes
        · simp only [hx, if_false]
          left
          simp [finish, print_usage, registrations, outputs, List.count_cons]

/-- Filling a NULL slot adds one tracked entry. -/
theorem tracked_set_length (p : process_t) :
    ∀ (processes : List (Option process_t)) (k : Nat), k < processes.length →
      processes.getD k none = none →
      (tracked (processes.set k (some p))).length = (tracked processes).length + 1 := by
  intro processes
  induction processes with
  | nil => intro k hk; simp at hk
  | cons x xs ih =>
    intro k hk hg
    cases k with
    | zero =>
      simp only [List.getD_eq_getElem?_getD, List.getElem?_cons_zero, Option.getD_some] at hg
      subst hg
      simp [tracked]
    | succ k =>
      simp only [List.length_cons, Nat.add_lt_add_iff_right] at hk
      have hg1 : xs.getD k none = none := by simpa using hg
      have := ih k hk hg1
      simp only [tracked] at this
      cases x <;> simp [tracked, this]

/-- A table whose tracked entries are as many as its slots has no NULL
slot. -/
theorem full_of_tracked_length :
    ∀ (processes : List (Option process_t)),
      (tracked processes).length = processes.length →
      ∀ i, i < processes.length → ∃ p, processes[i]? = some (some p) := by
  intro processes
  induction processes with
  | nil => intro _ i hi; simp at hi
  | cons x xs ih =>
    intro h i hi
    have hle : (tracked xs).length ≤ xs.length := by
      simp only [tracked]
      exact List.length_filterMap_le _ _
    cases x with
    | none =>
      simp only [tracked, List.filterMap_cons_none, id_eq, List.length_cons] at h
      simp only [tracked] at hle
      omega
    | some q =>
      have h1 : (tracked xs).length = xs.length := by
        simpa [tracked] using h
      cases i with
      | zero => exact ⟨q, by simp⟩
      | succ i =>
        simp only [List.length_cons, Nat.add_lt_add_iff_right] at hi
        simpa using ih h1 i hi

/-- One turn keeps the number of slots, and the tracked entries grow by the
registrations it reports. -/
theorem execute_command_count (e : env) (command : command_t)
    (processes : List (Option process_t)) (hlen : processes.length = MAX_PROCESSES) :
    (execute_command e command processes).processes.length = MAX_PROCESSES ∧
    (tracked (execute_command e command processes).processes).length =
      (tracked processes).length + registrations (execute_command e command processes).events := by
  rcases execute_command_table e command processes with ⟨h1, h2⟩ | ⟨k, hk, hg, h1, h2⟩
  · rw [h1, h2]; exact ⟨hlen, rfl⟩
  · rw [h1, h2]
    exact ⟨by simpa using hlen, tracked_set_length _ processes k (by omega) hg⟩

/-- One turn on a table without a NULL slot leaves the table. -/
theorem execute_command_full (e : env) (command : command_t)
    (processes : List (Option process_t)) (hlen : processes.length = MAX_PROCESSES)
    (hfull : ∀ i, i < MAX_PROCESSES → ∃ p, processes[i]? = some (some p)) :
    (execute_command e command processes).processes = processes := by
  rcases execute_command_table e command processes with ⟨h1, _⟩ | ⟨k, hk, hg, _, _⟩
  · exact h1
  · exact absurd hg ((getD_ne_none_iff processes k (by omega)).mpr (hfull k hk))

theorem run_turns_count (turns : List (env × command_t)) :
    ∀ (processes : List (Option process_t)), processes.length = MAX_PROCESSES →
      (run_turns turns processes).2.length = MAX_PROCESSES ∧
      (tracked (run_turns turns processes).2).length =
        (tracked processes).length + registrations (run_turns turns processes).1 := by
  induction turns with
  | nil => intro processes hlen; exact ⟨hlen, by simp [run_turns, registrations, outputs]⟩
  | cons turn rest ih =>
    intro processes hlen
    obtain ⟨h1, h2⟩ := execute_command_count turn.1 turn.2 processes hlen
    rw [run_turns]
    by_cases hs : (execute_command turn.1 turn.2 processes).status = .returned
    · simp only [hs, if_true]
      obtain ⟨h3, h4⟩ := ih _ h1
      refine ⟨h3, ?_⟩
      rw [h4, h2, registrations_append]
      omega
    · simp only [hs, if_false]
      exact ⟨h1, h2⟩

theorem run_turns_full (turns : List (env × command_t)) :
    ∀ (processes : List (Option process_t)), processes.length = MAX_PROCESSES →
      (∀ i, i < MAX_PROCESSES → ∃ p, processes[i]? = some (some p)) →
      (run_turns turns processes).2 = processes := by
  induction turns with
  | nil => intro processes _ _; rfl
  | cons turn rest ih =>
    intro processes hlen hfull
    have h1 := execute_command_full turn.1 turn.2 processes hlen hfull
    rw [run_turns]
    by_cases hs : (execute_command turn.1 turn.2 processes).status = .returned
    · simp only [hs, if_true]
      rw [h1]
      exact ih processes hlen hfull
    · simp only [hs, if_false]
      exact h1

/-- C20: entries are never retired. For every command, environment and table,
when `execute_command` returns, every slot that was occupied holds the same
entry afterwards. Consequently, for every sequence of turns from the empty
table in which eight registrations are reported, the table is full at its
end, stays the same through every further sequence of turns, and every later
`exec` with at least one argument whose fork succeeds takes the table-full
path in the parent, whatever became of the earlier children. -/
theorem C20_entries_never_retired :
    (∀ (e : env) (command : command_t) (processes : List (Option process_t)),
      (execute_command e command processes).status = .returned →
      ∀ (i : Nat) (p : process_t), processes[i]? = some (some p) →
        (execute_command e command processes).processes[i]? = some (some p)) ∧
    (∀ (turns : List (env × command_t)),
      registrations (run_turns turns (List.replicate MAX_PROCESSES none)).1 = MAX_PROCESSES →
      (∀ i, i < MAX_PROCESSES →
        ∃ p, (run_turns turns (List.replicate MAX_PROCESSES none)).2[i]? = some (some p)) ∧
      ∀ (later : List (env × command_t)),
        (run_turns later (run_turns turns (List.replicate MAX_PROCESSES none)).2).2 =
          (run_turns turns (List.replicate MAX_PROCESSES none)).2 ∧
        ∀ (e : env) (command : command_t),
          command.name = some CMD_EXEC → 1 ≤ command.args.size →
          e.fork ≠ -1 → e.fork ≠ 0 →
          execute_command e command
              (run_turns later (run_turns turns (List.replicate MAX_PROCESSES none)).2).2 =
            { events := [.fork, .printf "Too many processes running.\n" [],
                .printf "Error adding process.\n" []],
              processes := (run_turns turns (List.replicate MAX_PROCESSES none)).2,
              status := .returned }) := by
  constructor
  · intro e command processes _ i p hp
    rcases execute_command_table e command processes with ⟨h1, _⟩ | ⟨k, _, hg, h1, _⟩
    · rw [h1]; exact hp
    · rw [h1]
      have hik : k ≠ i := by
        intro hki
        subst hki
        simp [hp] at hg
      rw [List.getElem?_set_ne hik]
      exact hp
  · intro turns hreg
    obtain ⟨hlen, hcount⟩ :=
      run_turns_count turns (List.replicate MAX_PROCESSES none) (by simp)
    have hfull : ∀ i, i < MAX_PROCESSES →
        ∃ p, (run_turns turns (List.replicate MAX_PROCESSES none)).2[i]? = some (some p) := by
      intro i hi
      apply full_of_tracked_length _ _ i (by omega)
      rw [hcount, hreg, hlen]
      simp [tracked]
    refine ⟨hfull, fun later => ?_⟩
    have hsame := run_turns_full later _ hlen hfull
    refine ⟨hsame, fun e command hn hs hf1 hf0 => ?_⟩
    rw [hsame, execute_command_exec_parent e command _ hn hs hf1 hf0,
      exec_parent_full e command _ (add_process_full e.fork _ hlen hfull)]

/-- C20 at eight foreground `exec ls` turns from the empty table, whose forks
return 101 to 108, followed by a ninth `exec ls`. -/
theorem C20_entries_never_retired_witness :
    (execute_command
      { stdin := .error, fork := 109, fopen_ok := true, execvp := none, getpid := 1,
        wait_status := 0 }
      { name := some CMD_EXEC, args := { args := [some ['l', 's'], none], size := 1 },
        background := false, output_f := none }
      (run_turns
        ([101, 102, 103, 104, 105, 106, 107, 108].map (fun pid =>
          (({ stdin := .error, fork := pid, fopen_ok := true, execvp := none, getpid := 1,
              wait_status := 0 } : env),
           ({ name := some CMD_EXEC, args := { args := [some ['l', 's'], none], size := 1 },
              background := false, output_f := none } : command_t))))
        (List.replicate MAX_PROCESSES none)).2).events =
      [.fork, .printf "Too many processes running.\n" [],
        .printf "Error adding process.\n" []] := by
  have h := (C20_entries_never_retired.2
    ([101, 102, 103, 104, 105, 106, 107, 108].map (fun pid =>
      (({ stdin := .error, fork := pid, fopen_ok := true, execvp := none, getpid := 1,
          wait_status := 0 } : env),
       ({ name := some CMD_EXEC, args := { args := [some ['l', 's'], none], size := 1 },
          background := false, output_f := none } : command_t))))
    (by decide)).2 []
  have h2 := h.2
    { stdin := .error, fork := 109, fopen_ok := true, execvp := none, getpid := 1,
      wait_status := 0 }
    { name := some CMD_EXEC, args := { args := [some ['l', 's'], none], size := 1 },
      background := false, output_f := none } rfl (by decide) (by decide) (by decide)
  rw [h.1] at h2
  rw [h2]

/-! ## The parser on lines with 65 argument tokens -/

set_option maxRecDepth 20000 in
/-- C1, what the code does: the 134-character line `exec`, 62 arguments `x`,
then `> f &` has the tokens `exec`, xs, `>`, f, `&` with xs the 62 arguments,
that is 65 argument tokens. `parse_args` stores past the end of its array on
it, so `read_command` is undefined and returns no command with the arguments
xs, background true and the target f. -/
theorem C1_redirection_undefined_at_65_arguments :
    (CMD_EXEC ++ (List.replicate 62 [' ', 'x']).flatten ++
      [' ', '>', ' ', 'f', ' ', '&']).length = 134 ∧
    134 ≤ BUFFER_SIZE ∧
    tokens (CMD_EXEC ++ (List.replicate 62 [' ', 'x']).flatten ++
      [' ', '>', ' ', 'f', ' ', '&']) =
      CMD_EXEC :: (List.replicate 62 ['x'] ++ [ MODIFIER_OUTPUT, ['f'], MODIFIER_BACKGROUND]) ∧
    read_command (.line (CMD_EXEC ++ (List.replicate 62 [' ', 'x']).flatten ++
      [' ', '>', ' ', 'f', ' ', '&'])) = .undefined := by
  refine ⟨by decide, by decide, by decide, ?_⟩
  exact read_command_overflow _ (by decide)

set_option maxRecDepth 20000 in
/-- C2, what the code does: the 134-character line `exec`, 64 arguments `x`,
then `&` ends in exactly one trailing `&` token and has 65 argument tokens.
`parse_args` stores past the end of its array on it, so `read_command` is
undefined and sets no background flag. -/
theorem C2_background_undefined_at_65_arguments :
    (CMD_EXEC ++ (List.replicate 64 [' ', 'x']).flatten ++ [' ', '&']).length = 134 ∧
    134 ≤ BUFFER_SIZE ∧
    arg_tokens (CMD_EXEC ++ (List.replicate 64 [' ', 'x']).flatten ++ [' ', '&']) =
      List.replicate 64 ['x'] ++ [ MODIFIER_BACKGROUND] ∧
    (arg_tokens (CMD_EXEC ++ (List.replicate 64 [' ', 'x']).flatten ++
      [' ', '&'])).getLast? = some MODIFIER_BACKGROUND ∧
    (arg_tokens (CMD_EXEC ++ (List.replicate 64 [' ', 'x']).flatten ++
      [' ', '&'])).dropLast.getLast? ≠ some MODIFIER_BACKGROUND ∧
    read_command (.line (CMD_EXEC ++ (List.replicate 64 [' ', 'x']).flatten ++
      [' ', '&'])) = .undefined := by
  refine ⟨by decide, by decide, by decide, by decide, by decide, ?_⟩
  exact read_command_overflow _ (by decide)

end Imcsh
